import Mathlib

/-!
Verification development for the repair-simulation engine (`src/app.py`).

The source is a SimPy discrete-event program.  We embed it shallowly:

* SimPy's event heap becomes a list of events kept sorted by the key
  `(time, priority, event id)` — exactly the triple SimPy pushes on its heap
  (`URGENT = 0`, `NORMAL = 1`, ids from a global counter).  Popping the head
  of the sorted list is popping the heap minimum (keys are unique since ids
  are unique).
* Each suspended generator ("process") is represented by the event that will
  resume it, tagged with an action describing exactly what the Python code
  does at that resumption point.
* `random.expovariate(demand_rate)` draws are pre-sampled into a finite list
  of rationals handed to the model (Python floats are rationals; a fixed seed
  fixes the list).  When the list is exhausted the generator schedules
  nothing further, which models any real run whose remaining interarrival
  draws land beyond the horizon.
* All waiting `Container.get` requests are identical (each requests one unit
  and resumes the same vehicle continuation), so the FIFO queue of waiters is
  represented by its length; likewise the put queue.
* Fallible steps (`ValueError` from negative delays, `ValueError` from
  `Container(capacity<=0)` or `run(until<=now)`, `ZeroDivisionError` from
  `expovariate(0)`) return an error value.  The event loop takes explicit
  fuel; a run that never reaches the stop event reports `fuelOut`.
-/

attribute [local semireducible] Rat.add Rat.sub Rat.mul Rat.inv

namespace RepairSim

/-- Resumption points of the Python generators in `src/app.py`.

* `genFirst`: first resumption of `vehicle_generator` (draws an interarrival
  delay; spawns nothing yet).
* `genTick`: a `vehicle_generator` timeout fired (spawns a `vehicle` process,
  then draws the next delay).
* `vehStart`: a `vehicle` process starts (`total_arrivals += 1`, then
  `container.get(1)`).
* `getGrant`: a succeeded `ContainerGet` event is processed (callbacks:
  `_trigger_put`, then resume the vehicle: `served += 1` and spawn
  `repair_process`).
* `repStart`: a `repair_process` starts (`in_repair += 1`, then
  `timeout(repair_cycle_time)`).
* `repDone`: a repair timeout fired (`container.put(1)`).
* `putDone`: a succeeded `ContainerPut` event is processed (callbacks:
  `_trigger_get` grants waiters, then resume the repair: `in_repair -= 1`).
* `sample`: `metrics_observer` resumes (records a snapshot, reschedules).
* `stop`: the event `env.run(until=sim_time)` schedules at the horizon. -/
inductive Act where
  | genFirst
  | genTick
  | vehStart
  | getGrant
  | repStart
  | repDone
  | putDone
  | sample
  | stop
deriving DecidableEq

/-- A scheduled event: SimPy pushes `(time, priority, eid, event)` on its heap. -/
structure Ev where
  time : ℚ
  prio : ℕ
  eid  : ℕ
  act  : Act
deriving DecidableEq

/-- The heap order on events: lexicographic on (time, priority, id),
mirroring SimPy's heap key. -/
def evLE (a b : Ev) : Prop :=
  a.time < b.time ∨
    (a.time = b.time ∧ (a.prio < b.prio ∨ (a.prio = b.prio ∧ a.eid ≤ b.eid)))

instance : DecidableRel evLE := fun a b => by
  unfold evLE; infer_instance

instance : IsTotal Ev evLE := by
  constructor
  intro a b
  rcases lt_trichotomy a.time b.time with h | h | h
  · exact Or.inl (Or.inl h)
  · rcases lt_trichotomy a.prio b.prio with hp | hp | hp
    · exact Or.inl (Or.inr ⟨h, Or.inl hp⟩)
    · rcases Nat.le_total a.eid b.eid with he | he
      · exact Or.inl (Or.inr ⟨h, Or.inr ⟨hp, he⟩⟩)
      · exact Or.inr (Or.inr ⟨h.symm, Or.inr ⟨hp.symm, he⟩⟩)
    · exact Or.inr (Or.inr ⟨h.symm, Or.inl hp⟩)
  · exact Or.inr (Or.inl h)

instance : IsTrans Ev evLE := by
  constructor
  intro a b c hab hbc
  rcases hab with h1 | ⟨e1, h1⟩
  · rcases hbc with h2 | ⟨e2, _⟩
    · exact Or.inl (h1.trans h2)
    · exact Or.inl (e2 ▸ h1)
  · rcases hbc with h2 | ⟨e2, h2⟩
    · exact Or.inl (e1 ▸ h2)
    · refine Or.inr ⟨e1.trans e2, ?_⟩
      rcases h1 with p1 | ⟨p1, i1⟩
      · rcases h2 with p2 | ⟨p2, _⟩
        · exact Or.inl (p1.trans p2)
        · exact Or.inl (p2 ▸ p1)
      · rcases h2 with p2 | ⟨p2, i2⟩
        · exact Or.inl (p1 ▸ p2)
        · exact Or.inr ⟨p1.trans p2, i1.trans i2⟩

/-- One recorded metrics snapshot (the dict built by `metrics_observer`). -/
structure Snapshot where
  time : ℚ
  available_supply : ℕ
  backlog : ℕ
  in_repair : ℕ
  total_arrivals : ℕ
  served : ℕ
  satisfaction_rate : ℚ
deriving DecidableEq

/-- The whole mutable state of a run: simulated clock, event-id counter, the
pending-event queue (sorted by `evLE`), the `simpy.Container` (`level`,
lengths of its get/put queues), the `counters` dict, the `timeseries` list
(chronological order), and the remaining pre-sampled interarrival draws. -/
structure SimState where
  now : ℚ
  nextEid : ℕ
  queue : List Ev
  level : ℕ
  getQ : ℕ
  putQ : ℕ
  total_arrivals : ℕ
  served : ℕ
  in_repair : ℕ
  ts : List Snapshot
  draws : List ℚ
deriving DecidableEq

/-- The five scalar configuration inputs of `run_simulation`. -/
structure Cfg where
  initial_supply : ℕ
  demand_rate : ℚ
  repair_cycle_time : ℚ
  sim_time : ℚ
  record_interval : ℚ
deriving DecidableEq

/-- Errors the Python program can raise.  `configError` is modelled from the
spec: the spec claims a `ConfigError` class exists; no such class appears in
`src/app.py`, so no execution path below ever produces it. -/
inductive SimError where
  | valueErrorCapacity
  | valueErrorUntil
  | valueErrorNegDelay
  | zeroDivisionError
  | runtimeErrorEmpty
  | configError
deriving DecidableEq

/-- Schedule one event at absolute time `t` with priority `p`: push it with
the next event id, keeping the queue sorted by the heap key. -/
def sched (s : SimState) (t : ℚ) (p : ℕ) (a : Act) : SimState :=
  { s with queue := List.orderedInsert evLE ⟨t, p, s.nextEid, a⟩ s.queue,
           nextEid := s.nextEid + 1 }

/-- Schedule `n` identical events (consecutive ids). -/
def schedN : ℕ → SimState → ℚ → ℕ → Act → SimState
  | 0, s, _, _, _ => s
  | n + 1, s, t, p, a => schedN n (sched s t p a) t p a

/-- Model of `Container._trigger_get`: starting from the head of the get queue, grant
waiters one unit each while the level suffices (each grant decrements the
level, removes the waiter, and schedules the waiter's succeeded get event at
the current time with NORMAL priority). -/
def triggerGet (s : SimState) : SimState :=
  let n := min s.level s.getQ
  schedN n { s with level := s.level - n, getQ := s.getQ - n } s.now 1 .getGrant

/-- Model of `Container._trigger_put`: starting from the head of the put queue, accept
blocked puts while capacity allows. -/
def triggerPut (cap : ℕ) (s : SimState) : SimState :=
  let n := min (cap - s.level) s.putQ
  schedN n { s with level := s.level + n, putQ := s.putQ - n } s.now 1 .putDone

/-- Model of `container.get(1)`: append the request to the get queue, then run
`_trigger_get` (which may grant it, or an earlier waiter, immediately). -/
def containerGet1 (s : SimState) : SimState :=
  triggerGet { s with getQ := s.getQ + 1 }

/-- Model of `container.put(1)`: append the request to the put queue, then run
`_trigger_put`.  A put that would push `level` above `capacity` simply stays
queued — SimPy raises nothing here. -/
def containerPut1 (cap : ℕ) (s : SimState) : SimState :=
  triggerPut cap { s with putQ := s.putQ + 1 }

/-- Result of processing one event. -/
inductive StepRes where
  | cont (s : SimState)
  | halt (s : SimState)
  | fail (e : SimError)
deriving DecidableEq

/-- Pop the earliest pending event (heap minimum = head of the sorted queue),
advance the clock to its time, and perform its action, exactly as the Python
generators do at that resumption point. -/
def simStep (cfg : Cfg) (s : SimState) : StepRes :=
  match s.queue with
  | [] => .fail .runtimeErrorEmpty
  | e :: rest =>
    let s0 := { s with queue := rest, now := e.time }
    match e.act with
    | .stop => .halt s0
    | .genFirst =>
      if cfg.demand_rate = 0 then .fail .zeroDivisionError
      else
        match s0.draws with
        | [] => .cont s0
        | d :: ds =>
          if d < 0 then .fail .valueErrorNegDelay
          else .cont (sched { s0 with draws := ds } (s0.now + d) 1 .genTick)
    | .genTick =>
      let s1 := sched s0 s0.now 0 .vehStart
      if cfg.demand_rate = 0 then .fail .zeroDivisionError
      else
        match s1.draws with
        | [] => .cont s1
        | d :: ds =>
          if d < 0 then .fail .valueErrorNegDelay
          else .cont (sched { s1 with draws := ds } (s1.now + d) 1 .genTick)
    | .vehStart =>
      .cont (containerGet1 { s0 with total_arrivals := s0.total_arrivals + 1 })
    | .getGrant =>
      let s1 := triggerPut cfg.initial_supply s0
      .cont (sched { s1 with served := s1.served + 1 } s1.now 0 .repStart)
    | .repStart =>
      let s1 := { s0 with in_repair := s0.in_repair + 1 }
      if cfg.repair_cycle_time < 0 then .fail .valueErrorNegDelay
      else .cont (sched s1 (s1.now + cfg.repair_cycle_time) 1 .repDone)
    | .repDone =>
      .cont (containerPut1 cfg.initial_supply s0)
    | .putDone =>
      let s1 := triggerGet s0
      .cont { s1 with in_repair := s1.in_repair - 1 }
    | .sample =>
      let snap : Snapshot :=
        ⟨s0.now, s0.level, s0.getQ, s0.in_repair, s0.total_arrivals, s0.served,
          if 0 < s0.total_arrivals then (s0.served : ℚ) / (s0.total_arrivals : ℚ) else 0⟩
      let s1 := { s0 with ts := s0.ts ++ [snap] }
      if cfg.record_interval < 0 then .fail .valueErrorNegDelay
      else .cont (sched s1 (s1.now + cfg.record_interval) 1 .sample)

/-- Result of a whole run of the event loop. -/
inductive RunRes where
  | ok (s : SimState)
  | fail (e : SimError)
  | fuelOut
deriving DecidableEq

/-- The event loop of `env.run`, with explicit fuel. -/
def simLoop (cfg : Cfg) : ℕ → SimState → RunRes
  | 0, _ => .fuelOut
  | fuel + 1, s =>
    match simStep cfg s with
    | .cont s' => simLoop cfg fuel s'
    | .halt s' => .ok s'
    | .fail e => .fail e

/-- The state `run_simulation` builds before stepping: clock at 0, the
`vehicle_generator` and `metrics_observer` start events (URGENT, ids 0 and 1,
time 0) and the `run(until=sim_time)` stop event (URGENT, id 2, time
`sim_time`), a full container, zeroed counters, empty timeseries. -/
def initSt (cfg : Cfg) (draws : List ℚ) : SimState :=
  { now := 0, nextEid := 3,
    queue := [⟨0, 0, 0, .genFirst⟩, ⟨0, 0, 1, .sample⟩, ⟨cfg.sim_time, 0, 2, .stop⟩],
    level := cfg.initial_supply, getQ := 0, putQ := 0,
    total_arrivals := 0, served := 0, in_repair := 0, ts := [], draws := draws }

/-- Run `run_simulation` up to the final state: `simpy.Container` construction
fails for `capacity <= 0`; `env.run(until=sim_time)` fails for
`sim_time <= now = 0`; otherwise the event loop runs. -/
def simRun (cfg : Cfg) (draws : List ℚ) (fuel : ℕ) : RunRes :=
  if cfg.initial_supply = 0 then .fail .valueErrorCapacity
  else if cfg.sim_time ≤ 0 then .fail .valueErrorUntil
  else simLoop cfg fuel (initSt cfg draws)

/-- The `final_metrics` dict computed after `env.run` returns. -/
structure FinalMetrics where
  demand_satisfaction_rate : ℚ
  total_arrivals : ℕ
  served : ℕ
  backlog : ℕ
  available_supply : ℕ
  in_repair : ℕ
deriving DecidableEq

/-- Build `final_metrics` from the live state at the horizon. -/
def mkFinalMetrics (s : SimState) : FinalMetrics :=
  { demand_satisfaction_rate :=
      if 0 < s.total_arrivals then (s.served : ℚ) / (s.total_arrivals : ℚ) else 0,
    total_arrivals := s.total_arrivals,
    served := s.served,
    backlog := s.getQ,
    available_supply := s.level,
    in_repair := s.in_repair }

/-- What `run_simulation` returns: the `(final_metrics, timeseries)` pair, or
the propagated exception, or fuel exhaustion (a run that never reaches the
horizon). -/
inductive RunOut where
  | ok (final_metrics : FinalMetrics) (timeseries : List Snapshot)
  | fail (e : SimError)
  | fuelOut
deriving DecidableEq

/-- Model of `run_simulation(initial_supply, demand_rate, repair_cycle_time, sim_time,
record_interval)` from `src/app.py`, with the RNG replaced by the pre-sampled
draw list and the loop fueled. -/
def run_simulation (initial_supply : ℕ) (demand_rate repair_cycle_time sim_time record_interval : ℚ)
    (draws : List ℚ) (fuel : ℕ) : RunOut :=
  match simRun ⟨initial_supply, demand_rate, repair_cycle_time, sim_time, record_interval⟩
      draws fuel with
  | .ok s => .ok (mkFinalMetrics s) s.ts
  | .fail e => .fail e
  | .fuelOut => .fuelOut

/-- Model of `run_simulation` with the `record_interval` argument omitted: the Python
signature declares `record_interval=1.0` as default. -/
def run_simulation_default (initial_supply : ℕ) (demand_rate repair_cycle_time sim_time : ℚ)
    (draws : List ℚ) (fuel : ℕ) : RunOut :=
  run_simulation initial_supply demand_rate repair_cycle_time sim_time 1 draws fuel

/-- Number of pending events carrying action `a`. -/
def cntAct (a : Act) (q : List Ev) : ℕ := q.countP (fun e => decide (e.act = a))

/-- The master invariant of the event loop, established at `initSt` and
preserved by every `.cont` step.  Beyond well-formedness of the queue it
carries the unit/demand ledgers: a unit leaves `level` when a get is granted
and is counted by `in_repair` only once the repair start event is processed,
and symmetrically on return, so the conserved quantity must count the pending
`getGrant`/`repStart` events and discount the pending `putDone` events. -/
structure Inv (cfg : Cfg) (s : SimState) : Prop where
  valid_time : 0 < cfg.sim_time
  now_nonneg : 0 ≤ s.now
  now_lt : s.now < cfg.sim_time
  sorted : s.queue.Sorted evLE
  times_ge : ∀ e ∈ s.queue, s.now ≤ e.time
  nextEid_ge : 3 ≤ s.nextEid
  eids_lt : ∀ e ∈ s.queue, e.eid < s.nextEid
  eid_act : ∀ e ∈ s.queue,
    (e.eid = 0 → e.act = .genFirst ∧ e.time = 0 ∧ e.prio = 0) ∧
    (e.eid = 1 → e.act = .sample ∧ e.time = 0 ∧ e.prio = 0) ∧
    (e.eid = 2 → e.act = .stop)
  stop_count : cntAct .stop s.queue = 1
  stop_shape : ∀ e ∈ s.queue, e.act = .stop →
    e.time = cfg.sim_time ∧ e.prio = 0 ∧ e.eid = 2
  delay0 : ∀ e ∈ s.queue,
    (e.act = .getGrant ∨ e.act = .putDone ∨ e.act = .repStart ∨ e.act = .vehStart) →
      e.time ≤ s.now
  ledgerA : s.total_arrivals = s.served + s.getQ + cntAct .getGrant s.queue
  ledgerB : s.in_repair = cntAct .repDone s.queue + cntAct .putDone s.queue
  ledgerL : s.level + cntAct .getGrant s.queue + cntAct .repStart s.queue
      + cntAct .repDone s.queue = cfg.initial_supply
  putQ0 : s.putQ = 0
  obs_count : cntAct .sample s.queue = 1
  obs_time : ∀ e ∈ s.queue, e.act = .sample →
    e.time = (s.ts.length : ℚ) * cfg.record_interval ∧
    (s.ts = [] → e.eid = 1 ∧ e.prio = 0) ∧ (s.ts ≠ [] → e.prio = 1)
  ts_times : s.ts.map Snapshot.time
      = (List.range s.ts.length).map (fun k : ℕ => (k : ℚ) * cfg.record_interval)
  ts_lt : ∀ sn ∈ s.ts, sn.time < cfg.sim_time
  ts_first : s.ts = [] → s.total_arrivals = 0 ∧ s.served = 0 ∧ s.in_repair = 0 ∧
      s.getQ = 0 ∧ s.level = cfg.initial_supply
  ts_head : ∀ sn, s.ts.head? = some sn → sn = ⟨0, cfg.initial_supply, 0, 0, 0, 0, 0⟩
  mono_arr : List.Sorted (· ≤ ·) (s.ts.map Snapshot.total_arrivals ++ [s.total_arrivals])
  mono_srv : List.Sorted (· ≤ ·) (s.ts.map Snapshot.served ++ [s.served])
  snap_le : ∀ sn ∈ s.ts, sn.served ≤ sn.total_arrivals

/-- States reachable inside a run whose construction succeeded
(`Container(capacity>0)`, `run(until>0)`). -/
inductive Reach (cfg : Cfg) (draws : List ℚ) : SimState → Prop where
  | start : cfg.initial_supply ≠ 0 → 0 < cfg.sim_time → Reach cfg draws (initSt cfg draws)
  | next {s s' : SimState} : Reach cfg draws s → simStep cfg s = .cont s' → Reach cfg draws s'

/-- Facts about the state in which a run halts (the stop event at
`sim_time` was popped). -/
structure FinalFacts (cfg : Cfg) (s : SimState) : Prop where
  conservation : s.level + s.in_repair = cfg.initial_supply
  backlog_id : s.total_arrivals = s.served + s.getQ
  putQ_empty : s.putQ = 0
  ts_ne : s.ts ≠ []
  ts_times : s.ts.map Snapshot.time
      = (List.range s.ts.length).map (fun k : ℕ => (k : ℚ) * cfg.record_interval)
  ts_lt : ∀ sn ∈ s.ts, sn.time < cfg.sim_time
  ts_head : ∀ sn, s.ts.head? = some sn → sn = ⟨0, cfg.initial_supply, 0, 0, 0, 0, 0⟩
  horizon_le : cfg.sim_time ≤ (s.ts.length : ℚ) * cfg.record_interval
  queue_ge : ∀ e ∈ s.queue, cfg.sim_time ≤ e.time
  mono_arr : List.Pairwise (· ≤ ·) (s.ts.map Snapshot.total_arrivals)
  mono_srv : List.Pairwise (· ≤ ·) (s.ts.map Snapshot.served)
  snap_le : ∀ sn ∈ s.ts, sn.served ≤ sn.total_arrivals

theorem evLE_time_le {a b : Ev} (h : evLE a b) : a.time ≤ b.time := by
  rcases h with h | ⟨h, _⟩
  · exact le_of_lt h
  · exact le_of_eq h

theorem cnt_cons (a : Act) (e : Ev) (l : List Ev) :
    cntAct a (e :: l) = cntAct a l + (if e.act = a then 1 else 0) := by
  simp [cntAct, List.countP_cons]

theorem cnt_pos_iff {a : Act} {l : List Ev} : 0 < cntAct a l ↔ ∃ x ∈ l, x.act = a := by
  simp [cntAct, List.countP_pos_iff]

theorem cnt_eq_zero {a : Act} {l : List Ev} : cntAct a l = 0 ↔ ∀ x ∈ l, x.act ≠ a := by
  simp [cntAct, List.countP_eq_zero]

theorem mem_sched {s : SimState} {t : ℚ} {p : ℕ} {a : Act} {x : Ev} :
    x ∈ (sched s t p a).queue ↔ x = ⟨t, p, s.nextEid, a⟩ ∨ x ∈ s.queue := by
  unfold sched
  rw [(List.perm_orderedInsert evLE _ s.queue).mem_iff]
  simp

theorem cnt_sched (b : Act) (s : SimState) (t : ℚ) (p : ℕ) (a : Act) :
    cntAct b (sched s t p a).queue = cntAct b s.queue + (if a = b then 1 else 0) := by
  unfold sched cntAct
  rw [(List.perm_orderedInsert evLE _ s.queue).countP_eq]
  simp [List.countP_cons]

theorem sorted_sched {s : SimState} (hs : s.queue.Sorted evLE) (t : ℚ) (p : ℕ) (a : Act) :
    (sched s t p a).queue.Sorted evLE :=
  List.Sorted.orderedInsert _ _ hs

theorem sched_fields (s : SimState) (t : ℚ) (p : ℕ) (a : Act) :
    (sched s t p a).now = s.now ∧ (sched s t p a).nextEid = s.nextEid + 1 ∧
    (sched s t p a).level = s.level ∧ (sched s t p a).getQ = s.getQ ∧
    (sched s t p a).putQ = s.putQ ∧ (sched s t p a).total_arrivals = s.total_arrivals ∧
    (sched s t p a).served = s.served ∧ (sched s t p a).in_repair = s.in_repair ∧
    (sched s t p a).ts = s.ts ∧ (sched s t p a).draws = s.draws :=
  ⟨rfl, rfl, rfl, rfl, rfl, rfl, rfl, rfl, rfl, rfl⟩

theorem schedN_fields : ∀ (n : ℕ) (s : SimState) (t : ℚ) (p : ℕ) (a : Act),
    (schedN n s t p a).now = s.now ∧ (schedN n s t p a).nextEid = s.nextEid + n ∧
    (schedN n s t p a).level = s.level ∧ (schedN n s t p a).getQ = s.getQ ∧
    (schedN n s t p a).putQ = s.putQ ∧ (schedN n s t p a).total_arrivals = s.total_arrivals ∧
    (schedN n s t p a).served = s.served ∧ (schedN n s t p a).in_repair = s.in_repair ∧
    (schedN n s t p a).ts = s.ts ∧ (schedN n s t p a).draws = s.draws := by
  intro n
  induction n with
  | zero => exact fun s t p a => ⟨rfl, rfl, rfl, rfl, rfl, rfl, rfl, rfl, rfl, rfl⟩
  | succ n ih =>
    intro s t p a
    have h := ih (sched s t p a) t p a
    simpa [schedN, sched, Nat.add_comm, Nat.add_assoc, Nat.add_left_comm] using h

theorem cnt_schedN (b : Act) : ∀ (n : ℕ) (s : SimState) (t : ℚ) (p : ℕ) (a : Act),
    cntAct b (schedN n s t p a).queue
      = cntAct b s.queue + n * (if a = b then 1 else 0) := by
  intro n
  induction n with
  | zero => intro s t p a; simp [schedN]
  | succ n ih =>
    intro s t p a
    rw [schedN, ih, cnt_sched]
    ring

theorem sorted_schedN : ∀ (n : ℕ) (s : SimState) (t : ℚ) (p : ℕ) (a : Act),
    s.queue.Sorted evLE → (schedN n s t p a).queue.Sorted evLE := by
  intro n
  induction n with
  | zero => intro s t p a hs; exact hs
  | succ n ih => intro s t p a hs; exact ih _ t p a (sorted_sched hs t p a)

theorem mem_schedN : ∀ (n : ℕ) (s : SimState) (t : ℚ) (p : ℕ) (a : Act),
    ∀ x ∈ (schedN n s t p a).queue,
      x ∈ s.queue ∨ (x.time = t ∧ x.prio = p ∧ x.act = a ∧
        s.nextEid ≤ x.eid ∧ x.eid < s.nextEid + n) := by
  intro n
  induction n with
  | zero => intro s t p a x hx; exact Or.inl hx
  | succ n ih =>
    intro s t p a x hx
    rw [schedN] at hx
    rcases ih _ t p a x hx with hx' | ⟨h1, h2, h3, h4, h5⟩
    · rcases mem_sched.1 hx' with rfl | hx''
      · refine Or.inr ⟨rfl, rfl, rfl, le_refl _, ?_⟩
        show s.nextEid < s.nextEid + (n + 1)
        omega
      · exact Or.inl hx''
    · have he : (sched s t p a).nextEid = s.nextEid + 1 := rfl
      rw [he] at h4 h5
      exact Or.inr ⟨h1, h2, h3, by omega, by omega⟩

theorem mono_bump {l : List ℕ} {a b : ℕ} (h : List.Sorted (· ≤ ·) (l ++ [a]))
    (hab : a ≤ b) : List.Sorted (· ≤ ·) (l ++ [b]) := by
  rw [List.Sorted, List.pairwise_append] at h ⊢
  refine ⟨h.1, List.pairwise_singleton _ _, ?_⟩
  intro x hx c hc
  rcases List.mem_singleton.1 hc with rfl
  exact le_trans (h.2.2 x hx a (List.mem_singleton.2 rfl)) hab

theorem mono_dup {l : List ℕ} {a : ℕ} (h : List.Sorted (· ≤ ·) (l ++ [a])) :
    List.Sorted (· ≤ ·) (l ++ [a] ++ [a]) := by
  have h' := h
  rw [List.Sorted, List.pairwise_append] at h'
  rw [List.Sorted, List.pairwise_append]
  refine ⟨h, List.pairwise_singleton _ _, ?_⟩
  intro x hx c hc
  rcases List.mem_singleton.1 hc with rfl
  rcases List.mem_append.1 hx with hx' | hx'
  · exact h'.2.2 x hx' c (List.mem_singleton.2 rfl)
  · rcases List.mem_singleton.1 hx' with rfl
    exact le_refl _

/-- Any dispatched non-stop event lies strictly before the horizon: the stop
event has key `(sim_time, URGENT, 2)`, and the only pending events with id
at most 2 are the two time-0 start events. -/
theorem head_time_lt {cfg : Cfg} {s : SimState} {e : Ev} {rest : List Ev}
    (h : Inv cfg s) (hq : s.queue = e :: rest) (hne : e.act ≠ .stop) :
    e.time < cfg.sim_time := by
  have hmem_e : e ∈ s.queue := by rw [hq]; exact List.mem_cons_self _ _
  have hstop : 0 < cntAct .stop rest := by
    have := h.stop_count
    rw [hq, cnt_cons, if_neg hne] at this
    omega
  obtain ⟨x, hxr, hxa⟩ := cnt_pos_iff.1 hstop
  have hxmem : x ∈ s.queue := by rw [hq]; exact List.mem_cons_of_mem _ hxr
  obtain ⟨hxt, hxp, hxi⟩ := h.stop_shape x hxmem hxa
  have hrel : evLE e x := List.rel_of_sorted_cons (hq ▸ h.sorted) x hxr
  rcases hrel with hlt | ⟨heq, hp⟩
  · rwa [hxt] at hlt
  · exfalso
    rcases hp with hp | ⟨hp, hi⟩
    · rw [hxp] at hp; exact Nat.not_lt_zero _ hp
    · rw [hxi] at hi
      have hea := h.eid_act e hmem_e
      interval_cases he : e.eid
      · have := (hea.1 rfl).2.1
        rw [hxt] at heq
        rw [this] at heq
        exact absurd heq.symm (ne_of_gt h.valid_time)
      · have := (hea.2.1 rfl).2.1
        rw [hxt] at heq
        rw [this] at heq
        exact absurd heq.symm (ne_of_gt h.valid_time)
      · exact hne (hea.2.2 rfl)

/-- If the popped event is neither the generator start nor an observer
event, some snapshot has already been recorded (the observer's pending event
would otherwise still be the initial `(0, URGENT, 1)` event, which sorts
before every other pending event). -/
theorem pop_ts_ne {cfg : Cfg} {s : SimState} {e : Ev} {rest : List Ev}
    (h : Inv cfg s) (hq : s.queue = e :: rest)
    (h1 : e.act ≠ .genFirst) (h2 : e.act ≠ .sample) : s.ts ≠ [] := by
  intro hts
  have hmem_e : e ∈ s.queue := by rw [hq]; exact List.mem_cons_self _ _
  have hobs : 0 < cntAct .sample s.queue := by rw [h.obs_count]; omega
  obtain ⟨x, hxmem, hxa⟩ := cnt_pos_iff.1 hobs
  have hxr : x ∈ rest := by
    rw [hq] at hxmem
    rcases List.mem_cons.1 hxmem with rfl | hxr
    · exact absurd hxa h2
    · exact hxr
  obtain ⟨hxt, hxe, _⟩ := h.obs_time x hxmem hxa
  obtain ⟨hxi, hxp⟩ := hxe hts
  have hxt0 : x.time = 0 := by rw [hxt, hts]; simp
  have hrel : evLE e x := List.rel_of_sorted_cons (hq ▸ h.sorted) x hxr
  have hnow : (0 : ℚ) ≤ e.time := le_trans h.now_nonneg (h.times_ge e hmem_e)
  rcases hrel with hlt | ⟨heq, hp⟩
  · rw [hxt0] at hlt; exact absurd hlt (not_lt.2 hnow)
  · rcases hp with hp | ⟨_, hi⟩
    · rw [hxp] at hp; exact Nat.not_lt_zero _ hp
    · rw [hxi] at hi
      have hea := h.eid_act e hmem_e
      interval_cases he : e.eid
      · exact h1 (hea.1 rfl).1
      · exact h2 (hea.2.1 rfl).1

/-- The initial state satisfies the master invariant. -/
theorem inv_init {cfg : Cfg} (draws : List ℚ)
    (h1 : cfg.initial_supply ≠ 0) (h2 : 0 < cfg.sim_time) :
    Inv cfg (initSt cfg draws) := by
  have hmem : ∀ e : Ev, e ∈ (initSt cfg draws).queue →
      e = ⟨0, 0, 0, .genFirst⟩ ∨ e = ⟨0, 0, 1, .sample⟩ ∨ e = ⟨cfg.sim_time, 0, 2, .stop⟩ := by
    intro e he
    simpa [initSt] using he
  refine ⟨h2, le_refl _, h2, ?_, ?_, le_refl _, ?_, ?_, ?_, ?_, ?_, ?_, ?_, ?_, rfl, ?_,
    ?_, ?_, ?_, ?_, ?_, ?_, ?_, ?_⟩
  · show List.Sorted evLE _
    simp only [initSt]
    refine List.sorted_cons.2 ⟨?_, List.sorted_cons.2 ⟨?_, List.sorted_singleton _⟩⟩
    · intro b hb
      rcases List.mem_cons.1 hb with rfl | hb
      · exact Or.inr ⟨rfl, Or.inr ⟨rfl, Nat.zero_le _⟩⟩
      · rcases List.mem_singleton.1 hb with rfl
        exact Or.inl h2
    · intro b hb
      rcases List.mem_singleton.1 hb with rfl
      exact Or.inl h2
  · intro e he
    rcases hmem e he with rfl | rfl | rfl
    · exact le_refl _
    · exact le_refl _
    · exact h2.le
  · intro e he
    rcases hmem e he with rfl | rfl | rfl <;> simp [initSt]
  · intro e he
    rcases hmem e he with rfl | rfl | rfl <;> simp
  · rfl
  · intro e he ha
    rcases hmem e he with rfl | rfl | rfl <;> simp_all
  · intro e he ha
    rcases hmem e he with rfl | rfl | rfl <;> simp_all
  · rfl
  · rfl
  · show cfg.initial_supply + _ + _ + _ = cfg.initial_supply
    rfl
  · rfl
  · intro e he ha
    rcases hmem e he with rfl | rfl | rfl
    · simp_all
    · refine ⟨?_, fun _ => ⟨rfl, rfl⟩, fun hne => absurd rfl hne⟩
      show (0 : ℚ) = ((List.length ([] : List Snapshot) : ℕ) : ℚ) * cfg.record_interval
      simp
    · simp_all
  · rfl
  · intro sn hsn
    simp [initSt] at hsn
  · exact fun _ => ⟨rfl, rfl, rfl, rfl, rfl⟩
  · intro sn hsn
    simp [initSt] at hsn
  · exact List.sorted_singleton _
  · exact List.sorted_singleton _
  · intro sn hsn
    simp [initSt] at hsn

theorem cnt_rest_eq {s : SimState} {e : Ev} {rest : List Ev} (hq : s.queue = e :: rest)
    {b : Act} (hne : e.act ≠ b) : cntAct b rest = cntAct b s.queue := by
  rw [hq, cnt_cons, if_neg hne]
  omega

theorem cnt_rest_pop {s : SimState} {e : Ev} {rest : List Ev} (hq : s.queue = e :: rest)
    {b : Act} (heq : e.act = b) : cntAct b s.queue = cntAct b rest + 1 := by
  rw [hq, cnt_cons, if_pos heq]

/-- Popping an event whose action touches no counter, no ledger-relevant
pending-event count, and no snapshot state preserves the invariant (with the
clock advanced to the event's time and the draw list arbitrary). -/
theorem inv_pop {cfg : Cfg} {s : SimState} {e : Ev} {rest : List Ev}
    (h : Inv cfg s) (hq : s.queue = e :: rest)
    (hne : e.act ≠ .stop) (h2 : e.act ≠ .getGrant) (h3 : e.act ≠ .repStart)
    (h4 : e.act ≠ .repDone) (h5 : e.act ≠ .putDone) (h6 : e.act ≠ .sample)
    (ds : List ℚ) :
    Inv cfg { s with queue := rest, now := e.time, draws := ds } := by
  have hmem_e : e ∈ s.queue := by rw [hq]; exact List.mem_cons_self _ _
  have hrest : ∀ x ∈ rest, x ∈ s.queue := fun x hx => by
    rw [hq]; exact List.mem_cons_of_mem _ hx
  have hsorted_rest := (List.sorted_cons.1 (hq ▸ h.sorted)).2
  have hrel := (List.sorted_cons.1 (hq ▸ h.sorted)).1
  have hnow_le : s.now ≤ e.time := h.times_ge e hmem_e
  have hlt : e.time < cfg.sim_time := head_time_lt h hq hne
  refine ⟨h.valid_time, le_trans h.now_nonneg hnow_le, hlt, hsorted_rest,
    fun x hx => evLE_time_le (hrel x hx), h.nextEid_ge,
    fun x hx => h.eids_lt x (hrest x hx), fun x hx => h.eid_act x (hrest x hx),
    ?_, fun x hx ha => h.stop_shape x (hrest x hx) ha,
    fun x hx ha => le_trans (h.delay0 x (hrest x hx) ha) hnow_le,
    ?_, ?_, ?_, h.putQ0, ?_, fun x hx ha => h.obs_time x (hrest x hx) ha,
    h.ts_times, h.ts_lt, h.ts_first, h.ts_head, h.mono_arr, h.mono_srv, h.snap_le⟩
  · show cntAct .stop rest = 1
    rw [cnt_rest_eq hq hne]; exact h.stop_count
  · show s.total_arrivals = s.served + s.getQ + cntAct .getGrant rest
    rw [cnt_rest_eq hq h2]; exact h.ledgerA
  · show s.in_repair = cntAct .repDone rest + cntAct .putDone rest
    rw [cnt_rest_eq hq h4, cnt_rest_eq hq h5]; exact h.ledgerB
  · show s.level + cntAct .getGrant rest + cntAct .repStart rest + cntAct .repDone rest
      = cfg.initial_supply
    rw [cnt_rest_eq hq h2, cnt_rest_eq hq h3, cnt_rest_eq hq h4]; exact h.ledgerL
  · show cntAct .sample rest = 1
    rw [cnt_rest_eq hq h6]; exact h.obs_count

/-- The invariant ignores the remaining draw list. -/
theorem inv_draws {cfg : Cfg} {X : SimState} (h : Inv cfg X) (ds : List ℚ) :
    Inv cfg { X with draws := ds } :=
  ⟨h.valid_time, h.now_nonneg, h.now_lt, h.sorted, h.times_ge, h.nextEid_ge, h.eids_lt,
    h.eid_act, h.stop_count, h.stop_shape, h.delay0, h.ledgerA, h.ledgerB, h.ledgerL,
    h.putQ0, h.obs_count, h.obs_time, h.ts_times, h.ts_lt, h.ts_first, h.ts_head,
    h.mono_arr, h.mono_srv, h.snap_le⟩

/-- Scheduling a generator timeout (NORMAL priority, any time at or after
`now`) preserves the invariant: the event is counted by no ledger. -/
theorem inv_sched_genTick {cfg : Cfg} {X : SimState} (h : Inv cfg X) {t : ℚ}
    (ht : X.now ≤ t) : Inv cfg (sched X t 1 .genTick) := by
  have h3 := h.nextEid_ge
  refine ⟨h.valid_time, h.now_nonneg, h.now_lt, sorted_sched h.sorted _ _ _, ?_, ?_, ?_, ?_,
    ?_, ?_, ?_, ?_, ?_, ?_, h.putQ0, ?_, ?_, h.ts_times, h.ts_lt, h.ts_first, h.ts_head,
    h.mono_arr, h.mono_srv, h.snap_le⟩
  · intro x hx
    rcases mem_sched.1 hx with rfl | hx'
    · exact ht
    · exact h.times_ge x hx'
  · show 3 ≤ X.nextEid + 1
    omega
  · intro x hx
    rcases mem_sched.1 hx with rfl | hx'
    · show X.nextEid < X.nextEid + 1
      omega
    · have := h.eids_lt x hx'
      show x.eid < X.nextEid + 1
      omega
  · intro x hx
    rcases mem_sched.1 hx with rfl | hx'
    · exact ⟨fun h0 => absurd (show X.nextEid = 0 from h0) (by omega),
        fun h0 => absurd (show X.nextEid = 1 from h0) (by omega),
        fun h0 => absurd (show X.nextEid = 2 from h0) (by omega)⟩
    · exact h.eid_act x hx'
  · show cntAct .stop (sched X t 1 .genTick).queue = 1
    rw [cnt_sched]
    simpa using h.stop_count
  · intro x hx ha
    rcases mem_sched.1 hx with rfl | hx'
    · exact absurd (show Act.genTick = Act.stop from ha) (by decide)
    · exact h.stop_shape x hx' ha
  · intro x hx ha
    rcases mem_sched.1 hx with rfl | hx'
    · rcases ha with ha | ha | ha | ha <;>
        exact absurd (show Act.genTick = _ from ha) (by decide)
    · exact h.delay0 x hx' ha
  · show X.total_arrivals = X.served + X.getQ + cntAct .getGrant (sched X t 1 .genTick).queue
    rw [cnt_sched]
    simpa using h.ledgerA
  · show X.in_repair = cntAct .repDone (sched X t 1 .genTick).queue
      + cntAct .putDone (sched X t 1 .genTick).queue
    rw [cnt_sched, cnt_sched]
    simpa using h.ledgerB
  · show X.level + cntAct .getGrant (sched X t 1 .genTick).queue
      + cntAct .repStart (sched X t 1 .genTick).queue
      + cntAct .repDone (sched X t 1 .genTick).queue = cfg.initial_supply
    rw [cnt_sched, cnt_sched, cnt_sched]
    simpa using h.ledgerL
  · show cntAct .sample (sched X t 1 .genTick).queue = 1
    rw [cnt_sched]
    simpa using h.obs_count
  · intro x hx ha
    rcases mem_sched.1 hx with rfl | hx'
    · exact absurd (show Act.genTick = Act.sample from ha) (by decide)
    · exact h.obs_time x hx' ha

/-- Spawning a vehicle process (URGENT initial event at the current time)
preserves the invariant. -/
theorem inv_sched_vehStart {cfg : Cfg} {X : SimState} (h : Inv cfg X) :
    Inv cfg (sched X X.now 0 .vehStart) := by
  have h3 := h.nextEid_ge
  refine ⟨h.valid_time, h.now_nonneg, h.now_lt, sorted_sched h.sorted _ _ _, ?_, ?_, ?_, ?_,
    ?_, ?_, ?_, ?_, ?_, ?_, h.putQ0, ?_, ?_, h.ts_times, h.ts_lt, h.ts_first, h.ts_head,
    h.mono_arr, h.mono_srv, h.snap_le⟩
  · intro x hx
    rcases mem_sched.1 hx with rfl | hx'
    · exact le_refl _
    · exact h.times_ge x hx'
  · show 3 ≤ X.nextEid + 1
    omega
  · intro x hx
    rcases mem_sched.1 hx with rfl | hx'
    · show X.nextEid < X.nextEid + 1
      omega
    · have := h.eids_lt x hx'
      show x.eid < X.nextEid + 1
      omega
  · intro x hx
    rcases mem_sched.1 hx with rfl | hx'
    · exact ⟨fun h0 => absurd (show X.nextEid = 0 from h0) (by omega),
        fun h0 => absurd (show X.nextEid = 1 from h0) (by omega),
        fun h0 => absurd (show X.nextEid = 2 from h0) (by omega)⟩
    · exact h.eid_act x hx'
  · show cntAct .stop (sched X X.now 0 .vehStart).queue = 1
    rw [cnt_sched]
    simpa using h.stop_count
  · intro x hx ha
    rcases mem_sched.1 hx with rfl | hx'
    · exact absurd (show Act.vehStart = Act.stop from ha) (by decide)
    · exact h.stop_shape x hx' ha
  · intro x hx ha
    rcases mem_sched.1 hx with rfl | hx'
    · exact le_refl _
    · exact h.delay0 x hx' ha
  · show X.total_arrivals = X.served + X.getQ + cntAct .getGrant (sched X X.now 0 .vehStart).queue
    rw [cnt_sched]
    simpa using h.ledgerA
  · show X.in_repair = cntAct .repDone (sched X X.now 0 .vehStart).queue
      + cntAct .putDone (sched X X.now 0 .vehStart).queue
    rw [cnt_sched, cnt_sched]
    simpa using h.ledgerB
  · show X.level + cntAct .getGrant (sched X X.now 0 .vehStart).queue
      + cntAct .repStart (sched X X.now 0 .vehStart).queue
      + cntAct .repDone (sched X X.now 0 .vehStart).queue = cfg.initial_supply
    rw [cnt_sched, cnt_sched, cnt_sched]
    simpa using h.ledgerL
  · show cntAct .sample (sched X X.now 0 .vehStart).queue = 1
    rw [cnt_sched]
    simpa using h.obs_count
  · intro x hx ha
    rcases mem_sched.1 hx with rfl | hx'
    · exact absurd (show Act.vehStart = Act.sample from ha) (by decide)
    · exact h.obs_time x hx' ha

/-- A vehicle arrival: `total_arrivals += 1` followed by appending the get
request to the container's get queue preserves the invariant, provided a
snapshot has already been recorded. -/
theorem inv_arrival {cfg : Cfg} {X : SimState} (h : Inv cfg X) (hne : X.ts ≠ []) :
    Inv cfg { X with total_arrivals := X.total_arrivals + 1, getQ := X.getQ + 1 } := by
  refine ⟨h.valid_time, h.now_nonneg, h.now_lt, h.sorted, h.times_ge, h.nextEid_ge,
    h.eids_lt, h.eid_act, h.stop_count, h.stop_shape, h.delay0, ?_, h.ledgerB, h.ledgerL,
    h.putQ0, h.obs_count, h.obs_time, h.ts_times, h.ts_lt, fun hts => absurd hts hne,
    h.ts_head, ?_, h.mono_srv, h.snap_le⟩
  · show X.total_arrivals + 1 = X.served + (X.getQ + 1) + cntAct .getGrant X.queue
    have := h.ledgerA
    omega
  · exact mono_bump h.mono_arr (Nat.le_succ _)

/-- The operation `Container._trigger_get` preserves the invariant: granting
`min level getQ` head waiters moves that many units from `level` into
pending `getGrant` events scheduled at the current instant. -/
theorem inv_triggerGet {cfg : Cfg} {X : SimState} (h : Inv cfg X) :
    Inv cfg (triggerGet X) := by
  have h3 := h.nextEid_ge
  set n := min X.level X.getQ with hn
  have hn1 : n ≤ X.level := min_le_left _ _
  have hn2 : n ≤ X.getQ := min_le_right _ _
  obtain ⟨f1, f2, f3, f4, f5, f6, f7, f8, f9, f10⟩ :=
    schedN_fields n { X with level := X.level - n, getQ := X.getQ - n } X.now 1 .getGrant
  show Inv cfg (schedN n { X with level := X.level - n, getQ := X.getQ - n } X.now 1 .getGrant)
  refine ⟨h.valid_time, ?_, ?_, ?_, ?_, ?_, ?_, ?_, ?_, ?_, ?_, ?_, ?_, ?_, ?_, ?_, ?_,
    ?_, ?_, ?_, ?_, ?_, ?_, ?_⟩
  · rw [f1]; exact h.now_nonneg
  · rw [f1]; exact h.now_lt
  · exact sorted_schedN _ _ _ _ _ h.sorted
  · intro x hx
    rw [f1]
    rcases mem_schedN _ _ _ _ _ x hx with hx' | ⟨ht', _, _, _, _⟩
    · exact h.times_ge x hx'
    · exact le_of_eq ht'.symm
  · rw [f2]
    show 3 ≤ X.nextEid + n
    omega
  · intro x hx
    rw [f2]
    rcases mem_schedN _ _ _ _ _ x hx with hx' | ⟨_, _, _, _, h5'⟩
    · have := h.eids_lt x hx'
      show x.eid < X.nextEid + n
      omega
    · have h5'' : x.eid < X.nextEid + n := h5'
      show x.eid < X.nextEid + n
      omega
  · intro x hx
    rcases mem_schedN _ _ _ _ _ x hx with hx' | ⟨_, _, _, h4', _⟩
    · exact h.eid_act x hx'
    · have h4'' : X.nextEid ≤ x.eid := h4'
      exact ⟨fun h0 => absurd h0 (by omega), fun h0 => absurd h0 (by omega),
        fun h0 => absurd h0 (by omega)⟩
  · rw [cnt_schedN]
    simpa using h.stop_count
  · intro x hx ha
    rcases mem_schedN _ _ _ _ _ x hx with hx' | ⟨_, _, h3', _, _⟩
    · exact h.stop_shape x hx' ha
    · exact absurd (h3'.symm.trans ha) (by decide)
  · intro x hx ha
    rw [f1]
    rcases mem_schedN _ _ _ _ _ x hx with hx' | ⟨ht', _, _, _, _⟩
    · exact h.delay0 x hx' ha
    · exact le_of_eq ht'
  · rw [f6, f7, f4, cnt_schedN, if_pos rfl]
    dsimp only
    have hA := h.ledgerA
    omega
  · rw [f8, cnt_schedN, cnt_schedN, if_neg (by decide), if_neg (by decide)]
    dsimp only
    have hB := h.ledgerB
    omega
  · rw [f3, cnt_schedN, cnt_schedN, cnt_schedN, if_pos rfl, if_neg (by decide),
      if_neg (by decide)]
    dsimp only
    have hL := h.ledgerL
    omega
  · rw [f5]
    exact h.putQ0
  · rw [cnt_schedN, if_neg (by decide)]
    simpa using h.obs_count
  · intro x hx ha
    rw [f9]
    rcases mem_schedN _ _ _ _ _ x hx with hx' | ⟨_, _, h3', _, _⟩
    · exact h.obs_time x hx' ha
    · exact absurd (h3'.symm.trans ha) (by decide)
  · rw [f9]; exact h.ts_times
  · rw [f9]; exact h.ts_lt
  · intro hts
    rw [f9] at hts
    obtain ⟨a0, s0, r0, g0, l0⟩ := h.ts_first hts
    have hn0 : n = 0 := by rw [hn, g0]; simp
    rw [f6, f7, f8, f4, f3]
    dsimp only
    rw [hn0]
    simp only [Nat.sub_zero]
    exact ⟨a0, s0, r0, g0, l0⟩
  · intro sn hsn
    rw [f9] at hsn
    exact h.ts_head sn hsn
  · rw [f9, f6]; exact h.mono_arr
  · rw [f9, f7]; exact h.mono_srv
  · rw [f9]; exact h.snap_le

/-- A `_trigger_put` on an empty put queue does nothing. -/
theorem triggerPut_of_putQ0 {cap : ℕ} {X : SimState} (h0 : X.putQ = 0) :
    triggerPut cap X = X := by
  obtain ⟨a1, a2, a3, a4, a5, a6, a7, a8, a9, a10, a11⟩ := X
  dsimp only at h0
  subst h0
  unfold triggerPut
  simp [schedN]

/-- A `put(1)` on a container with free capacity succeeds immediately:
the level rises and a `putDone` event is scheduled at the current instant. -/
theorem containerPut1_eq {cap : ℕ} {X : SimState} (h0 : X.putQ = 0)
    (hcap : X.level + 1 ≤ cap) :
    containerPut1 cap X
      = sched { X with level := X.level + 1, putQ := 0 } X.now 1 .putDone := by
  obtain ⟨a1, a2, a3, a4, a5, a6, a7, a8, a9, a10, a11⟩ := X
  dsimp only at h0 hcap ⊢
  subst h0
  unfold containerPut1 triggerPut
  dsimp only
  rw [Nat.min_eq_right (by omega : 0 + 1 ≤ cap - a4)]
  simp [schedN]

/-- Processing a succeeded get event (`served += 1`, spawn a repair process)
preserves the invariant: the pending grant becomes a pending repair start. -/
theorem inv_getGrant {cfg : Cfg} {s : SimState} {e : Ev} {rest : List Ev}
    (h : Inv cfg s) (hq : s.queue = e :: rest) (hae : e.act = .getGrant) :
    Inv cfg (sched { s with queue := rest, now := e.time, served := s.served + 1 }
      e.time 0 .repStart) := by
  have h3 := h.nextEid_ge
  have hmem_e : e ∈ s.queue := by rw [hq]; exact List.mem_cons_self _ _
  have hrest : ∀ x ∈ rest, x ∈ s.queue := fun x hx => by
    rw [hq]; exact List.mem_cons_of_mem _ hx
  have hsorted_rest := (List.sorted_cons.1 (hq ▸ h.sorted)).2
  have hrel := (List.sorted_cons.1 (hq ▸ h.sorted)).1
  have hnow_le : s.now ≤ e.time := h.times_ge e hmem_e
  have hlt : e.time < cfg.sim_time := head_time_lt h hq (by rw [hae]; decide)
  have hts : s.ts ≠ [] := pop_ts_ne h hq (by rw [hae]; decide) (by rw [hae]; decide)
  have hgg := cnt_rest_pop hq hae
  have hstp := cnt_rest_eq hq (show e.act ≠ .stop by rw [hae]; decide)
  have hrs := cnt_rest_eq hq (show e.act ≠ .repStart by rw [hae]; decide)
  have hrd := cnt_rest_eq hq (show e.act ≠ .repDone by rw [hae]; decide)
  have hpd := cnt_rest_eq hq (show e.act ≠ .putDone by rw [hae]; decide)
  have hsm := cnt_rest_eq hq (show e.act ≠ .sample by rw [hae]; decide)
  refine ⟨h.valid_time, ?_, ?_, ?_, ?_, ?_, ?_, ?_, ?_, ?_, ?_, ?_, ?_, ?_, ?_, ?_, ?_,
    ?_, ?_, ?_, ?_, ?_, ?_, ?_⟩
  · show (0 : ℚ) ≤ e.time
    exact le_trans h.now_nonneg hnow_le
  · show e.time < cfg.sim_time
    exact hlt
  · exact sorted_sched hsorted_rest _ _ _
  · intro x hx
    rcases mem_sched.1 hx with rfl | hx'
    · exact le_refl _
    · exact evLE_time_le (hrel x hx')
  · show 3 ≤ s.nextEid + 1
    omega
  · intro x hx
    rcases mem_sched.1 hx with rfl | hx'
    · show s.nextEid < s.nextEid + 1
      omega
    · have := h.eids_lt x (hrest x hx')
      show x.eid < s.nextEid + 1
      omega
  · intro x hx
    rcases mem_sched.1 hx with rfl | hx'
    · exact ⟨fun h0 => absurd (show s.nextEid = 0 from h0) (by omega),
        fun h0 => absurd (show s.nextEid = 1 from h0) (by omega),
        fun h0 => absurd (show s.nextEid = 2 from h0) (by omega)⟩
    · exact h.eid_act x (hrest x hx')
  · rw [cnt_sched, if_neg (show ¬(Act.repStart = Act.stop) by decide)]
    dsimp only [sched]
    have := h.stop_count
    omega
  · intro x hx ha
    rcases mem_sched.1 hx with rfl | hx'
    · exact absurd (show Act.repStart = Act.stop from ha) (by decide)
    · exact h.stop_shape x (hrest x hx') ha
  · intro x hx ha
    rcases mem_sched.1 hx with rfl | hx'
    · exact le_refl _
    · exact le_trans (h.delay0 x (hrest x hx') ha) hnow_le
  · rw [cnt_sched, if_neg (show ¬(Act.repStart = Act.getGrant) by decide)]
    dsimp only [sched]
    have hA := h.ledgerA
    omega
  · rw [cnt_sched, cnt_sched, if_neg (show ¬(Act.repStart = Act.repDone) by decide),
      if_neg (show ¬(Act.repStart = Act.putDone) by decide)]
    dsimp only [sched]
    have hB := h.ledgerB
    omega
  · rw [cnt_sched, cnt_sched, cnt_sched,
      if_neg (show ¬(Act.repStart = Act.getGrant) by decide),
      if_pos (show Act.repStart = Act.repStart from rfl),
      if_neg (show ¬(Act.repStart = Act.repDone) by decide)]
    dsimp only [sched]
    have hL := h.ledgerL
    omega
  · exact h.putQ0
  · rw [cnt_sched, if_neg (show ¬(Act.repStart = Act.sample) by decide)]
    dsimp only [sched]
    have := h.obs_count
    omega
  · intro x hx ha
    rcases mem_sched.1 hx with rfl | hx'
    · exact absurd (show Act.repStart = Act.sample from ha) (by decide)
    · exact h.obs_time x (hrest x hx') ha
  · exact h.ts_times
  · exact h.ts_lt
  · intro hts'
    exact absurd hts' hts
  · exact h.ts_head
  · exact h.mono_arr
  · exact mono_bump h.mono_srv (Nat.le_succ _)
  · exact h.snap_le

/-- Starting a repair process (`in_repair += 1`, schedule the repair timeout)
preserves the invariant: the pending repair start becomes a pending repair
completion. -/
theorem inv_repStart {cfg : Cfg} {s : SimState} {e : Ev} {rest : List Ev}
    (h : Inv cfg s) (hq : s.queue = e :: rest) (hae : e.act = .repStart)
    (hrct : 0 ≤ cfg.repair_cycle_time) :
    Inv cfg (sched { s with queue := rest, now := e.time, in_repair := s.in_repair + 1 }
      (e.time + cfg.repair_cycle_time) 1 .repDone) := by
  have h3 := h.nextEid_ge
  have hmem_e : e ∈ s.queue := by rw [hq]; exact List.mem_cons_self _ _
  have hrest : ∀ x ∈ rest, x ∈ s.queue := fun x hx => by
    rw [hq]; exact List.mem_cons_of_mem _ hx
  have hsorted_rest := (List.sorted_cons.1 (hq ▸ h.sorted)).2
  have hrel := (List.sorted_cons.1 (hq ▸ h.sorted)).1
  have hnow_le : s.now ≤ e.time := h.times_ge e hmem_e
  have hlt : e.time < cfg.sim_time := head_time_lt h hq (by rw [hae]; decide)
  have hts : s.ts ≠ [] := pop_ts_ne h hq (by rw [hae]; decide) (by rw [hae]; decide)
  have hrsp := cnt_rest_pop hq hae
  have hstp := cnt_rest_eq hq (show e.act ≠ .stop by rw [hae]; decide)
  have hgg := cnt_rest_eq hq (show e.act ≠ .getGrant by rw [hae]; decide)
  have hrd := cnt_rest_eq hq (show e.act ≠ .repDone by rw [hae]; decide)
  have hpd := cnt_rest_eq hq (show e.act ≠ .putDone by rw [hae]; decide)
  have hsm := cnt_rest_eq hq (show e.act ≠ .sample by rw [hae]; decide)
  refine ⟨h.valid_time, ?_, ?_, ?_, ?_, ?_, ?_, ?_, ?_, ?_, ?_, ?_, ?_, ?_, ?_, ?_, ?_,
    ?_, ?_, ?_, ?_, ?_, ?_, ?_⟩
  · show (0 : ℚ) ≤ e.time
    exact le_trans h.now_nonneg hnow_le
  · show e.time < cfg.sim_time
    exact hlt
  · exact sorted_sched hsorted_rest _ _ _
  · intro x hx
    rcases mem_sched.1 hx with rfl | hx'
    · show e.time ≤ e.time + cfg.repair_cycle_time
      linarith
    · exact evLE_time_le (hrel x hx')
  · show 3 ≤ s.nextEid + 1
    omega
  · intro x hx
    rcases mem_sched.1 hx with rfl | hx'
    · show s.nextEid < s.nextEid + 1
      omega
    · have := h.eids_lt x (hrest x hx')
      show x.eid < s.nextEid + 1
      omega
  · intro x hx
    rcases mem_sched.1 hx with rfl | hx'
    · exact ⟨fun h0 => absurd (show s.nextEid = 0 from h0) (by omega),
        fun h0 => absurd (show s.nextEid = 1 from h0) (by omega),
        fun h0 => absurd (show s.nextEid = 2 from h0) (by omega)⟩
    · exact h.eid_act x (hrest x hx')
  · rw [cnt_sched, if_neg (show ¬(Act.repDone = Act.stop) by decide)]
    dsimp only [sched]
    have := h.stop_count
    omega
  · intro x hx ha
    rcases mem_sched.1 hx with rfl | hx'
    · exact absurd (show Act.repDone = Act.stop from ha) (by decide)
    · exact h.stop_shape x (hrest x hx') ha
  · intro x hx ha
    rcases mem_sched.1 hx with rfl | hx'
    · rcases ha with ha | ha | ha | ha <;>
        exact absurd (show Act.repDone = _ from ha) (by decide)
    · exact le_trans (h.delay0 x (hrest x hx') ha) hnow_le
  · rw [cnt_sched, if_neg (show ¬(Act.repDone = Act.getGrant) by decide)]
    dsimp only [sched]
    have hA := h.ledgerA
    omega
  · rw [cnt_sched, cnt_sched, if_pos (show Act.repDone = Act.repDone from rfl),
      if_neg (show ¬(Act.repDone = Act.putDone) by decide)]
    dsimp only [sched]
    have hB := h.ledgerB
    omega
  · rw [cnt_sched, cnt_sched, cnt_sched,
      if_neg (show ¬(Act.repDone = Act.getGrant) by decide),
      if_neg (show ¬(Act.repDone = Act.repStart) by decide),
      if_pos (show Act.repDone = Act.repDone from rfl)]
    dsimp only [sched]
    have hL := h.ledgerL
    omega
  · exact h.putQ0
  · rw [cnt_sched, if_neg (show ¬(Act.repDone = Act.sample) by decide)]
    dsimp only [sched]
    have := h.obs_count
    omega
  · intro x hx ha
    rcases mem_sched.1 hx with rfl | hx'
    · exact absurd (show Act.repDone = Act.sample from ha) (by decide)
    · exact h.obs_time x (hrest x hx') ha
  · exact h.ts_times
  · exact h.ts_lt
  · intro hts'
    exact absurd hts' hts
  · exact h.ts_head
  · exact h.mono_arr
  · exact h.mono_srv
  · exact h.snap_le

/-- Processing a repair completion (`container.put(1)`) preserves the
invariant: the pending repair completion becomes a unit back in `level` plus
a pending `putDone` event. -/
theorem inv_repDone {cfg : Cfg} {s : SimState} {e : Ev} {rest : List Ev}
    (h : Inv cfg s) (hq : s.queue = e :: rest) (hae : e.act = .repDone) :
    Inv cfg (sched { s with queue := rest, now := e.time, level := s.level + 1, putQ := 0 }
      e.time 1 .putDone) := by
  have h3 := h.nextEid_ge
  have hmem_e : e ∈ s.queue := by rw [hq]; exact List.mem_cons_self _ _
  have hrest : ∀ x ∈ rest, x ∈ s.queue := fun x hx => by
    rw [hq]; exact List.mem_cons_of_mem _ hx
  have hsorted_rest := (List.sorted_cons.1 (hq ▸ h.sorted)).2
  have hrel := (List.sorted_cons.1 (hq ▸ h.sorted)).1
  have hnow_le : s.now ≤ e.time := h.times_ge e hmem_e
  have hlt : e.time < cfg.sim_time := head_time_lt h hq (by rw [hae]; decide)
  have hts : s.ts ≠ [] := pop_ts_ne h hq (by rw [hae]; decide) (by rw [hae]; decide)
  have hrdp := cnt_rest_pop hq hae
  have hstp := cnt_rest_eq hq (show e.act ≠ .stop by rw [hae]; decide)
  have hgg := cnt_rest_eq hq (show e.act ≠ .getGrant by rw [hae]; decide)
  have hrs := cnt_rest_eq hq (show e.act ≠ .repStart by rw [hae]; decide)
  have hpd := cnt_rest_eq hq (show e.act ≠ .putDone by rw [hae]; decide)
  have hsm := cnt_rest_eq hq (show e.act ≠ .sample by rw [hae]; decide)
  refine ⟨h.valid_time, ?_, ?_, ?_, ?_, ?_, ?_, ?_, ?_, ?_, ?_, ?_, ?_, ?_, ?_, ?_, ?_,
    ?_, ?_, ?_, ?_, ?_, ?_, ?_⟩
  · show (0 : ℚ) ≤ e.time
    exact le_trans h.now_nonneg hnow_le
  · show e.time < cfg.sim_time
    exact hlt
  · exact sorted_sched hsorted_rest _ _ _
  · intro x hx
    rcases mem_sched.1 hx with rfl | hx'
    · exact le_refl _
    · exact evLE_time_le (hrel x hx')
  · show 3 ≤ s.nextEid + 1
    omega
  · intro x hx
    rcases mem_sched.1 hx with rfl | hx'
    · show s.nextEid < s.nextEid + 1
      omega
    · have := h.eids_lt x (hrest x hx')
      show x.eid < s.nextEid + 1
      omega
  · intro x hx
    rcases mem_sched.1 hx with rfl | hx'
    · exact ⟨fun h0 => absurd (show s.nextEid = 0 from h0) (by omega),
        fun h0 => absurd (show s.nextEid = 1 from h0) (by omega),
        fun h0 => absurd (show s.nextEid = 2 from h0) (by omega)⟩
    · exact h.eid_act x (hrest x hx')
  · rw [cnt_sched, if_neg (show ¬(Act.putDone = Act.stop) by decide)]
    dsimp only [sched]
    have := h.stop_count
    omega
  · intro x hx ha
    rcases mem_sched.1 hx with rfl | hx'
    · exact absurd (show Act.putDone = Act.stop from ha) (by decide)
    · exact h.stop_shape x (hrest x hx') ha
  · intro x hx ha
    rcases mem_sched.1 hx with rfl | hx'
    · exact le_refl _
    · exact le_trans (h.delay0 x (hrest x hx') ha) hnow_le
  · rw [cnt_sched, if_neg (show ¬(Act.putDone = Act.getGrant) by decide)]
    dsimp only [sched]
    have hA := h.ledgerA
    omega
  · rw [cnt_sched, cnt_sched, if_neg (show ¬(Act.putDone = Act.repDone) by decide),
      if_pos (show Act.putDone = Act.putDone from rfl)]
    dsimp only [sched]
    have hB := h.ledgerB
    omega
  · rw [cnt_sched, cnt_sched, cnt_sched,
      if_neg (show ¬(Act.putDone = Act.getGrant) by decide),
      if_neg (show ¬(Act.putDone = Act.repStart) by decide),
      if_neg (show ¬(Act.putDone = Act.repDone) by decide)]
    dsimp only [sched]
    have hL := h.ledgerL
    omega
  · rfl
  · rw [cnt_sched, if_neg (show ¬(Act.putDone = Act.sample) by decide)]
    dsimp only [sched]
    have := h.obs_count
    omega
  · intro x hx ha
    rcases mem_sched.1 hx with rfl | hx'
    · exact absurd (show Act.putDone = Act.sample from ha) (by decide)
    · exact h.obs_time x (hrest x hx') ha
  · exact h.ts_times
  · exact h.ts_lt
  · intro hts'
    exact absurd hts' hts
  · exact h.ts_head
  · exact h.mono_arr
  · exact h.mono_srv
  · exact h.snap_le

/-- Setting `in_repair` commutes with scheduling events. -/
theorem schedN_set_inRepair : ∀ (n : ℕ) (B : SimState) (t : ℚ) (p : ℕ) (a : Act) (k : ℕ),
    ({ schedN n B t p a with in_repair := k } : SimState)
      = schedN n { B with in_repair := k } t p a := by
  intro n
  induction n with
  | zero => intro B t p a k; rfl
  | succ n ih =>
    intro B t p a k
    rw [schedN, schedN, ih]
    rfl

/-- Processing a succeeded put event (grant waiting getters, then
`in_repair -= 1`) preserves the invariant. -/
theorem inv_putDone {cfg : Cfg} {s : SimState} {e : Ev} {rest : List Ev}
    (h : Inv cfg s) (hq : s.queue = e :: rest) (hae : e.act = .putDone) :
    Inv cfg { triggerGet { s with queue := rest, now := e.time } with
      in_repair := (triggerGet { s with queue := rest, now := e.time }).in_repair - 1 } := by
  have h3 := h.nextEid_ge
  have hmem_e : e ∈ s.queue := by rw [hq]; exact List.mem_cons_self _ _
  have hrest : ∀ x ∈ rest, x ∈ s.queue := fun x hx => by
    rw [hq]; exact List.mem_cons_of_mem _ hx
  have hsorted_rest := (List.sorted_cons.1 (hq ▸ h.sorted)).2
  have hrel := (List.sorted_cons.1 (hq ▸ h.sorted)).1
  have hnow_le : s.now ≤ e.time := h.times_ge e hmem_e
  have hlt : e.time < cfg.sim_time := head_time_lt h hq (by rw [hae]; decide)
  have hts : s.ts ≠ [] := pop_ts_ne h hq (by rw [hae]; decide) (by rw [hae]; decide)
  have hpdp := cnt_rest_pop hq hae
  have hstp := cnt_rest_eq hq (show e.act ≠ .stop by rw [hae]; decide)
  have hgg := cnt_rest_eq hq (show e.act ≠ .getGrant by rw [hae]; decide)
  have hrs := cnt_rest_eq hq (show e.act ≠ .repStart by rw [hae]; decide)
  have hrd := cnt_rest_eq hq (show e.act ≠ .repDone by rw [hae]; decide)
  have hsm := cnt_rest_eq hq (show e.act ≠ .sample by rw [hae]; decide)
  have h0 : triggerGet { s with queue := rest, now := e.time }
      = schedN (min s.level s.getQ)
          { s with queue := rest, now := e.time, level := s.level - (min s.level s.getQ), getQ := s.getQ - (min s.level s.getQ) }
          e.time 1 .getGrant := rfl
  obtain ⟨g1, g2, g3, g4, g5, g6, g7, g8, g9, g10⟩ :=
    schedN_fields (min s.level s.getQ)
      { s with queue := rest, now := e.time, level := s.level - (min s.level s.getQ), getQ := s.getQ - (min s.level s.getQ) }
      e.time 1 .getGrant
  rw [h0, schedN_set_inRepair, g8]
  show Inv cfg (schedN (min s.level s.getQ)
    { s with
        queue := rest, now := e.time,
        level := s.level - (min s.level s.getQ), getQ := s.getQ - (min s.level s.getQ),
        in_repair := s.in_repair - 1 }
    e.time 1 .getGrant)
  have hn1 : min s.level s.getQ ≤ s.level := min_le_left _ _
  have hn2 : min s.level s.getQ ≤ s.getQ := min_le_right _ _
  obtain ⟨f1, f2, f3, f4, f5, f6, f7, f8, f9, f10⟩ :=
    schedN_fields (min s.level s.getQ)
      { s with
          queue := rest, now := e.time,
          level := s.level - (min s.level s.getQ), getQ := s.getQ - (min s.level s.getQ),
          in_repair := s.in_repair - 1 }
      e.time 1 .getGrant
  refine ⟨h.valid_time, ?_, ?_, ?_, ?_, ?_, ?_, ?_, ?_, ?_, ?_, ?_, ?_, ?_, ?_, ?_, ?_,
    ?_, ?_, ?_, ?_, ?_, ?_, ?_⟩
  · rw [f1]
    show (0 : ℚ) ≤ e.time
    exact le_trans h.now_nonneg hnow_le
  · rw [f1]
    show e.time < cfg.sim_time
    exact hlt
  · exact sorted_schedN _ _ _ _ _ hsorted_rest
  · intro x hx
    rw [f1]
    rcases mem_schedN _ _ _ _ _ x hx with hx' | ⟨ht', _, _, _, _⟩
    · show e.time ≤ x.time
      exact evLE_time_le (hrel x hx')
    · exact le_of_eq ht'.symm
  · rw [f2]
    show 3 ≤ s.nextEid + min s.level s.getQ
    omega
  · intro x hx
    rw [f2]
    rcases mem_schedN _ _ _ _ _ x hx with hx' | ⟨_, _, _, _, h5'⟩
    · have := h.eids_lt x (hrest x hx')
      show x.eid < s.nextEid + min s.level s.getQ
      omega
    · have h5'' : x.eid < s.nextEid + min s.level s.getQ := h5'
      show x.eid < s.nextEid + min s.level s.getQ
      omega
  · intro x hx
    rcases mem_schedN _ _ _ _ _ x hx with hx' | ⟨_, _, _, h4', _⟩
    · exact h.eid_act x (hrest x hx')
    · have h4'' : s.nextEid ≤ x.eid := h4'
      exact ⟨fun h0 => absurd h0 (by omega), fun h0 => absurd h0 (by omega),
        fun h0 => absurd h0 (by omega)⟩
  · rw [cnt_schedN, if_neg (show ¬(Act.getGrant = Act.stop) by decide)]
    dsimp only
    have := h.stop_count
    omega
  · intro x hx ha
    rcases mem_schedN _ _ _ _ _ x hx with hx' | ⟨_, _, h3', _, _⟩
    · exact h.stop_shape x (hrest x hx') ha
    · exact absurd (h3'.symm.trans ha) (by decide)
  · intro x hx ha
    rw [f1]
    rcases mem_schedN _ _ _ _ _ x hx with hx' | ⟨ht', _, _, _, _⟩
    · show x.time ≤ e.time
      exact le_trans (h.delay0 x (hrest x hx') ha) hnow_le
    · exact le_of_eq ht'
  · rw [f6, f7, f4, cnt_schedN, if_pos (show Act.getGrant = Act.getGrant from rfl)]
    dsimp only
    have hA := h.ledgerA
    omega
  · rw [f8, cnt_schedN, cnt_schedN, if_neg (show ¬(Act.getGrant = Act.repDone) by decide),
      if_neg (show ¬(Act.getGrant = Act.putDone) by decide)]
    dsimp only
    have hB := h.ledgerB
    omega
  · rw [f3, cnt_schedN, cnt_schedN, cnt_schedN,
      if_pos (show Act.getGrant = Act.getGrant from rfl),
      if_neg (show ¬(Act.getGrant = Act.repStart) by decide),
      if_neg (show ¬(Act.getGrant = Act.repDone) by decide)]
    dsimp only
    have hL := h.ledgerL
    omega
  · rw [f5]
    exact h.putQ0
  · rw [cnt_schedN, if_neg (show ¬(Act.getGrant = Act.sample) by decide)]
    dsimp only
    have := h.obs_count
    omega
  · intro x hx ha
    rw [f9]
    rcases mem_schedN _ _ _ _ _ x hx with hx' | ⟨_, _, h3', _, _⟩
    · exact h.obs_time x (hrest x hx') ha
    · exact absurd (h3'.symm.trans ha) (by decide)
  · rw [f9]; exact h.ts_times
  · rw [f9]; exact h.ts_lt
  · intro hts'
    rw [f9] at hts'
    exact absurd hts' hts
  · intro sn hsn
    rw [f9] at hsn
    exact h.ts_head sn hsn
  · rw [f9, f6]; exact h.mono_arr
  · rw [f9, f7]; exact h.mono_srv
  · rw [f9]; exact h.snap_le

theorem append_singleton_ne_nil {α : Type} (l : List α) (a : α) : l ++ [a] ≠ [] := by
  intro hh
  have := congrArg List.length hh
  simp at this

/-- Recording a snapshot and rescheduling the observer preserves the
invariant. -/
theorem inv_sample {cfg : Cfg} {s : SimState} {e : Ev} {rest : List Ev}
    (h : Inv cfg s) (hq : s.queue = e :: rest) (hae : e.act = .sample)
    (hri : 0 ≤ cfg.record_interval) :
    Inv cfg (sched
      { s with
          queue := rest, now := e.time,
          ts := s.ts ++ [⟨e.time, s.level, s.getQ, s.in_repair, s.total_arrivals, s.served,
            if 0 < s.total_arrivals then (s.served : ℚ) / (s.total_arrivals : ℚ) else 0⟩] }
      (e.time + cfg.record_interval) 1 .sample) := by
  have h3 := h.nextEid_ge
  have hmem_e : e ∈ s.queue := by rw [hq]; exact List.mem_cons_self _ _
  have hrest : ∀ x ∈ rest, x ∈ s.queue := fun x hx => by
    rw [hq]; exact List.mem_cons_of_mem _ hx
  have hsorted_rest := (List.sorted_cons.1 (hq ▸ h.sorted)).2
  have hrel := (List.sorted_cons.1 (hq ▸ h.sorted)).1
  have hnow_le : s.now ≤ e.time := h.times_ge e hmem_e
  have hlt : e.time < cfg.sim_time := head_time_lt h hq (by rw [hae]; decide)
  have hobs := h.obs_time e hmem_e hae
  have hsmp0 : cntAct .sample rest = 0 := by
    have := h.obs_count
    have := cnt_rest_pop hq hae
    omega
  have hnosmp : ∀ x ∈ rest, x.act ≠ .sample := cnt_eq_zero.1 hsmp0
  have hstp := cnt_rest_eq hq (show e.act ≠ .stop by rw [hae]; decide)
  have hgg := cnt_rest_eq hq (show e.act ≠ .getGrant by rw [hae]; decide)
  have hrs := cnt_rest_eq hq (show e.act ≠ .repStart by rw [hae]; decide)
  have hrd := cnt_rest_eq hq (show e.act ≠ .repDone by rw [hae]; decide)
  have hpd := cnt_rest_eq hq (show e.act ≠ .putDone by rw [hae]; decide)
  refine ⟨h.valid_time, ?_, ?_, ?_, ?_, ?_, ?_, ?_, ?_, ?_, ?_, ?_, ?_, ?_, ?_, ?_, ?_,
    ?_, ?_, ?_, ?_, ?_, ?_, ?_⟩
  · show (0 : ℚ) ≤ e.time
    exact le_trans h.now_nonneg hnow_le
  · show e.time < cfg.sim_time
    exact hlt
  · exact sorted_sched hsorted_rest _ _ _
  · intro x hx
    rcases mem_sched.1 hx with rfl | hx'
    · show e.time ≤ e.time + cfg.record_interval
      linarith
    · exact evLE_time_le (hrel x hx')
  · show 3 ≤ s.nextEid + 1
    omega
  · intro x hx
    rcases mem_sched.1 hx with rfl | hx'
    · show s.nextEid < s.nextEid + 1
      omega
    · have := h.eids_lt x (hrest x hx')
      show x.eid < s.nextEid + 1
      omega
  · intro x hx
    rcases mem_sched.1 hx with rfl | hx'
    · exact ⟨fun h0 => absurd (show s.nextEid = 0 from h0) (by omega),
        fun h0 => absurd (show s.nextEid = 1 from h0) (by omega),
        fun h0 => absurd (show s.nextEid = 2 from h0) (by omega)⟩
    · exact h.eid_act x (hrest x hx')
  · rw [cnt_sched, if_neg (show ¬(Act.sample = Act.stop) by decide)]
    dsimp only [sched]
    have := h.stop_count
    omega
  · intro x hx ha
    rcases mem_sched.1 hx with rfl | hx'
    · exact absurd (show Act.sample = Act.stop from ha) (by decide)
    · exact h.stop_shape x (hrest x hx') ha
  · intro x hx ha
    rcases mem_sched.1 hx with rfl | hx'
    · rcases ha with ha | ha | ha | ha <;>
        exact absurd (show Act.sample = _ from ha) (by decide)
    · exact le_trans (h.delay0 x (hrest x hx') ha) hnow_le
  · rw [cnt_sched, if_neg (show ¬(Act.sample = Act.getGrant) by decide)]
    dsimp only [sched]
    have hA := h.ledgerA
    omega
  · rw [cnt_sched, cnt_sched, if_neg (show ¬(Act.sample = Act.repDone) by decide),
      if_neg (show ¬(Act.sample = Act.putDone) by decide)]
    dsimp only [sched]
    have hB := h.ledgerB
    omega
  · rw [cnt_sched, cnt_sched, cnt_sched,
      if_neg (show ¬(Act.sample = Act.getGrant) by decide),
      if_neg (show ¬(Act.sample = Act.repStart) by decide),
      if_neg (show ¬(Act.sample = Act.repDone) by decide)]
    dsimp only [sched]
    have hL := h.ledgerL
    omega
  · exact h.putQ0
  · rw [cnt_sched, if_pos (show Act.sample = Act.sample from rfl)]
    dsimp only [sched]
    omega
  · intro x hx ha
    rcases mem_sched.1 hx with rfl | hx'
    · refine ⟨?_, fun hemp =>
        absurd (show s.ts ++ [_] = [] from hemp) (append_singleton_ne_nil _ _),
        fun _ => rfl⟩
      show e.time + cfg.record_interval
          = ((s.ts ++ [_]).length : ℚ) * cfg.record_interval
      rw [List.length_append, hobs.1, List.length_singleton]
      push_cast
      ring
    · exact absurd ha (hnosmp x hx')
  · show (s.ts ++ [_]).map Snapshot.time
      = (List.range (s.ts ++ [_]).length).map (fun k : ℕ => (k : ℚ) * cfg.record_interval)
    rw [List.map_append, h.ts_times, List.length_append, List.length_singleton,
      List.range_succ, List.map_append]
    simp [hobs.1]
  · intro sn hsn
    rcases List.mem_append.1 hsn with hsn' | hsn'
    · exact h.ts_lt sn hsn'
    · rcases List.mem_singleton.1 hsn' with rfl
      exact hlt
  · intro hts'
    exact absurd (show s.ts ++ [_] = [] from hts') (append_singleton_ne_nil _ _)
  · intro sn hsn
    have hsn' : (s.ts ++ [(⟨e.time, s.level, s.getQ, s.in_repair, s.total_arrivals, s.served,
        if 0 < s.total_arrivals then (s.served : ℚ) / (s.total_arrivals : ℚ) else 0⟩ :
        Snapshot)]).head? = some sn := hsn
    rcases he : s.ts with _ | ⟨x, l⟩
    · rw [he] at hsn'
      simp only [List.nil_append, List.head?_cons, Option.some.injEq] at hsn'
      obtain ⟨a0, s0, r0, g0, l0⟩ := h.ts_first he
      have ht0 : e.time = 0 := by
        have h1 := hobs.1
        rw [he] at h1
        simpa using h1
      rw [← hsn']
      simp [ht0, a0, s0, r0, g0, l0]
    · rw [he] at hsn'
      rw [List.cons_append, List.head?_cons, Option.some.injEq] at hsn'
      exact h.ts_head sn (by rw [he, List.head?_cons, hsn'])
  · show List.Sorted (· ≤ ·) ((s.ts ++ [_]).map Snapshot.total_arrivals ++ [s.total_arrivals])
    rw [List.map_append]
    exact mono_dup h.mono_arr
  · show List.Sorted (· ≤ ·) ((s.ts ++ [_]).map Snapshot.served ++ [s.served])
    rw [List.map_append]
    exact mono_dup h.mono_srv
  · intro sn hsn
    rcases List.mem_append.1 hsn with hsn' | hsn'
    · exact h.snap_le sn hsn'
    · rcases List.mem_singleton.1 hsn' with rfl
      have hA := h.ledgerA
      show s.served ≤ s.total_arrivals
      omega

theorem inv_step {cfg : Cfg} {s s' : SimState} (h : Inv cfg s)
    (hs : simStep cfg s = .cont s') : Inv cfg s' := by
  rcases hq : s.queue with _ | ⟨e, rest⟩
  · rw [simStep, hq] at hs
    cases hs
  · have hmem_e : e ∈ s.queue := by rw [hq]; exact List.mem_cons_self _ _
    have hrest : ∀ x ∈ rest, x ∈ s.queue := fun x hx => by
      rw [hq]; exact List.mem_cons_of_mem _ hx
    have hsorted_rest : rest.Sorted evLE := (List.sorted_cons.1 (hq ▸ h.sorted)).2
    have hrel : ∀ x ∈ rest, evLE e x := (List.sorted_cons.1 (hq ▸ h.sorted)).1
    have hnow_le : s.now ≤ e.time := h.times_ge e hmem_e
    have hnow0 : (0 : ℚ) ≤ e.time := le_trans h.now_nonneg hnow_le
    have htimes : ∀ x ∈ rest, e.time ≤ x.time := fun x hx => evLE_time_le (hrel x hx)
    have hcnt : ∀ b, cntAct b s.queue = cntAct b rest + (if e.act = b then 1 else 0) := by
      intro b; rw [hq, cnt_cons]
    rw [simStep, hq] at hs
    dsimp only at hs
    cases hae : e.act
    all_goals rw [hae] at hs
    all_goals dsimp only at hs
    case stop => cases hs
    case genFirst =>
      by_cases hrate : cfg.demand_rate = 0
      · rw [if_pos hrate] at hs; cases hs
      · rw [if_neg hrate] at hs
        rcases hd : s.draws with _ | ⟨d, ds⟩ <;> rw [hd] at hs <;> dsimp only at hs
        · injection hs with hs'
          subst hs'
          exact inv_pop h hq (by rw [hae]; decide) (by rw [hae]; decide) (by rw [hae]; decide)
            (by rw [hae]; decide) (by rw [hae]; decide) (by rw [hae]; decide) []
        · by_cases hdneg : d < 0
          · rw [if_pos hdneg] at hs; cases hs
          · rw [if_neg hdneg] at hs
            injection hs with hs'
            subst hs'
            refine inv_sched_genTick
              (inv_pop h hq (by rw [hae]; decide) (by rw [hae]; decide) (by rw [hae]; decide)
                (by rw [hae]; decide) (by rw [hae]; decide) (by rw [hae]; decide) ds) ?_
            show e.time ≤ e.time + d
            have : (0 : ℚ) ≤ d := not_lt.1 hdneg
            linarith
    case genTick =>
      simp only [sched] at hs
      by_cases hrate : cfg.demand_rate = 0
      · rw [if_pos hrate] at hs; cases hs
      · rw [if_neg hrate] at hs
        rcases hd : s.draws with _ | ⟨d, ds⟩ <;> rw [hd] at hs <;> dsimp only at hs
        · injection hs with hs'
          subst hs'
          exact inv_sched_vehStart
            (inv_pop h hq (by rw [hae]; decide) (by rw [hae]; decide) (by rw [hae]; decide)
              (by rw [hae]; decide) (by rw [hae]; decide) (by rw [hae]; decide) [])
        · by_cases hdneg : d < 0
          · rw [if_pos hdneg] at hs; cases hs
          · rw [if_neg hdneg] at hs
            injection hs with hs'
            subst hs'
            refine inv_sched_genTick
              (inv_sched_vehStart
                (inv_pop h hq (by rw [hae]; decide) (by rw [hae]; decide) (by rw [hae]; decide)
                  (by rw [hae]; decide) (by rw [hae]; decide) (by rw [hae]; decide) ds)) ?_
            show e.time ≤ e.time + d
            have : (0 : ℚ) ≤ d := not_lt.1 hdneg
            linarith
    case vehStart =>
      injection hs with hs'
      subst hs'
      have hts : s.ts ≠ [] := pop_ts_ne h hq (by rw [hae]; decide) (by rw [hae]; decide)
      have hp := inv_pop h hq (by rw [hae]; decide) (by rw [hae]; decide) (by rw [hae]; decide)
        (by rw [hae]; decide) (by rw [hae]; decide) (by rw [hae]; decide) s.draws
      exact inv_triggerGet (inv_arrival hp hts)
    case getGrant =>
      injection hs with hs'
      subst hs'
      have h0' : ({ s with queue := rest, now := e.time } : SimState).putQ = 0 := h.putQ0
      rw [triggerPut_of_putQ0 h0']
      have hg := inv_getGrant h hq hae
      exact hg
    case repStart =>
      by_cases hrct : cfg.repair_cycle_time < 0
      · rw [if_pos hrct] at hs; cases hs
      · rw [if_neg hrct] at hs
        injection hs with hs'
        subst hs'
        exact inv_repStart h hq hae (not_lt.1 hrct)
    case repDone =>
      injection hs with hs'
      subst hs'
      have h0' : ({ s with queue := rest, now := e.time } : SimState).putQ = 0 := h.putQ0
      have hcap' : ({ s with queue := rest, now := e.time } : SimState).level + 1
          ≤ cfg.initial_supply := by
        have hL := h.ledgerL
        have hrdp := cnt_rest_pop hq hae
        show s.level + 1 ≤ cfg.initial_supply
        omega
      rw [containerPut1_eq h0' hcap']
      have hg := inv_repDone h hq hae
      exact hg
    case putDone =>
      injection hs with hs'
      subst hs'
      have hg := inv_putDone h hq hae
      exact hg
    case sample =>
      by_cases hri : cfg.record_interval < 0
      · rw [if_pos hri] at hs; cases hs
      · rw [if_neg hri] at hs
        injection hs with hs'
        subst hs'
        have hg := inv_sample h hq hae (not_lt.1 hri)
        exact hg

/-- Every state reached inside a validly configured run satisfies the master
invariant. -/
theorem reach_inv {cfg : Cfg} {draws : List ℚ} {s : SimState} (h : Reach cfg draws s) :
    Inv cfg s := by
  induction h with
  | start h1 h2 => exact inv_init _ h1 h2
  | next _ hstep ih => exact inv_step ih hstep

/-- When the stop event is popped, the final facts hold: at that moment no
same-instant internal event can still be pending (they would sort before the
stop event), so the ledgers collapse to the exact conservation and backlog
identities. -/
theorem inv_halt {cfg : Cfg} {s s' : SimState} (h : Inv cfg s)
    (hs : simStep cfg s = .halt s') : FinalFacts cfg s' := by
  rcases hq : s.queue with _ | ⟨e, rest⟩
  · rw [simStep, hq] at hs
    cases hs
  · have hmem_e : e ∈ s.queue := by rw [hq]; exact List.mem_cons_self _ _
    have hrest : ∀ x ∈ rest, x ∈ s.queue := fun x hx => by
      rw [hq]; exact List.mem_cons_of_mem _ hx
    have hrel : ∀ x ∈ rest, evLE e x := (List.sorted_cons.1 (hq ▸ h.sorted)).1
    rw [simStep, hq] at hs
    dsimp only at hs
    cases hae : e.act
    all_goals rw [hae] at hs
    all_goals dsimp only at hs
    case stop =>
      injection hs with hs'
      subst hs'
      obtain ⟨het, hep, hei⟩ := h.stop_shape e hmem_e hae
      have hqge : ∀ x ∈ rest, cfg.sim_time ≤ x.time := by
        intro x hx
        rw [← het]
        exact evLE_time_le (hrel x hx)
      have hd0 : ∀ x ∈ rest,
          ¬(x.act = .getGrant ∨ x.act = .putDone ∨ x.act = .repStart ∨ x.act = .vehStart) := by
        intro x hx hxa
        have h1 := h.delay0 x (hrest x hx) hxa
        have h2 := hqge x hx
        have h3 := h.now_lt
        linarith
      have hcg : cntAct .getGrant rest = 0 :=
        cnt_eq_zero.2 (fun x hx hxa => hd0 x hx (Or.inl hxa))
      have hcp : cntAct .putDone rest = 0 :=
        cnt_eq_zero.2 (fun x hx hxa => hd0 x hx (Or.inr (Or.inl hxa)))
      have hcri : cntAct .repStart rest = 0 :=
        cnt_eq_zero.2 (fun x hx hxa => hd0 x hx (Or.inr (Or.inr (Or.inl hxa))))
      have hggq := cnt_rest_eq hq (show e.act ≠ .getGrant by rw [hae]; decide)
      have hrsq := cnt_rest_eq hq (show e.act ≠ .repStart by rw [hae]; decide)
      have hrdq := cnt_rest_eq hq (show e.act ≠ .repDone by rw [hae]; decide)
      have hpdq := cnt_rest_eq hq (show e.act ≠ .putDone by rw [hae]; decide)
      have hobs_ex : ∃ x ∈ rest, x.act = .sample := by
        have hpos : 0 < cntAct .sample s.queue := by rw [h.obs_count]; omega
        obtain ⟨x, hxm, hxa⟩ := cnt_pos_iff.1 hpos
        rw [hq] at hxm
        rcases List.mem_cons.1 hxm with rfl | hxr
        · rw [hae] at hxa; cases hxa
        · exact ⟨x, hxr, hxa⟩
      have hts_ne : s.ts ≠ [] := by
        intro hts
        obtain ⟨x, hxr, hxa⟩ := hobs_ex
        obtain ⟨hxt, _, _⟩ := h.obs_time x (hrest x hxr) hxa
        have h1 := hqge x hxr
        rw [hxt, hts] at h1
        simp at h1
        have := h.valid_time
        linarith
      refine ⟨?_, ?_, h.putQ0, hts_ne, h.ts_times, h.ts_lt, h.ts_head, ?_, hqge,
        List.Pairwise.sublist (List.sublist_append_left _ _) h.mono_arr,
        List.Pairwise.sublist (List.sublist_append_left _ _) h.mono_srv, h.snap_le⟩
      · have hL := h.ledgerL
        have hB := h.ledgerB
        show s.level + s.in_repair = cfg.initial_supply
        omega
      · have hA := h.ledgerA
        show s.total_arrivals = s.served + s.getQ
        omega
      · obtain ⟨x, hxr, hxa⟩ := hobs_ex
        obtain ⟨hxt, _, _⟩ := h.obs_time x (hrest x hxr) hxa
        have h1 := hqge x hxr
        rw [hxt] at h1
        exact h1
    all_goals repeat' split at hs
    all_goals cases hs

/-- If the fueled loop reaches the stop event from an invariant state, the
final facts hold of the state it returns. -/
theorem simLoop_final {cfg : Cfg} :
    ∀ {fuel : ℕ} {s sF : SimState}, Inv cfg s → simLoop cfg fuel s = .ok sF →
      FinalFacts cfg sF := by
  intro fuel
  induction fuel with
  | zero =>
    intro s sF _ hl
    rw [simLoop] at hl
    cases hl
  | succ n ih =>
    intro s sF hInv hl
    rw [simLoop] at hl
    rcases hstep : simStep cfg s with s1 | s1 | err
    all_goals rw [hstep] at hl
    all_goals dsimp only at hl
    · exact ih (inv_step hInv hstep) hl
    · injection hl with hl'
      subst hl'
      exact inv_halt hInv hstep
    · cases hl

/-- A run of `simRun` that returns a final state went through validation and
the event loop, so the final facts hold. -/
theorem simRun_final {cfg : Cfg} {draws : List ℚ} {fuel : ℕ} {sF : SimState}
    (hr : simRun cfg draws fuel = .ok sF) : FinalFacts cfg sF := by
  unfold simRun at hr
  by_cases h1 : cfg.initial_supply = 0
  · rw [if_pos h1] at hr; cases hr
  · rw [if_neg h1] at hr
    by_cases h2 : cfg.sim_time ≤ 0
    · rw [if_pos h2] at hr; cases hr
    · rw [if_neg h2] at hr
      exact simLoop_final (inv_init draws h1 (lt_of_not_le h2)) hr

/-- Inversion for `run_simulation`: a successful run comes from a successful
`simRun`, with the outputs projected from the final state. -/
theorem run_simulation_ok {initial_supply : ℕ}
    {demand_rate repair_cycle_time sim_time record_interval : ℚ}
    {draws : List ℚ} {fuel : ℕ} {m : FinalMetrics} {ts : List Snapshot}
    (hr : run_simulation initial_supply demand_rate repair_cycle_time sim_time
        record_interval draws fuel = .ok m ts) :
    ∃ sF : SimState,
      simRun ⟨initial_supply, demand_rate, repair_cycle_time, sim_time, record_interval⟩
          draws fuel = .ok sF ∧
        m = mkFinalMetrics sF ∧ ts = sF.ts := by
  unfold run_simulation at hr
  rcases hs : simRun ⟨initial_supply, demand_rate, repair_cycle_time, sim_time,
      record_interval⟩ draws fuel with sF | err | _
  all_goals rw [hs] at hr
  all_goals dsimp only at hr
  · injection hr with hm hts
    exact ⟨sF, rfl, hm.symm, hts.symm⟩
  · cases hr
  · cases hr

theorem triggerGet_draws (X : SimState) : (triggerGet X).draws = X.draws := by
  unfold triggerGet
  exact (schedN_fields _ _ _ _ _).2.2.2.2.2.2.2.2.2

theorem triggerPut_draws (cap : ℕ) (X : SimState) : (triggerPut cap X).draws = X.draws := by
  unfold triggerPut
  exact (schedN_fields _ _ _ _ _).2.2.2.2.2.2.2.2.2

theorem containerGet1_draws (X : SimState) : (containerGet1 X).draws = X.draws :=
  triggerGet_draws _

theorem containerPut1_draws (cap : ℕ) (X : SimState) :
    (containerPut1 cap X).draws = X.draws :=
  triggerPut_draws _ _

/-- A step only ever consumes draws: the remaining draws of the next state
all come from the current draw list. -/
theorem simStep_draws {cfg : Cfg} {s s' : SimState} (hs : simStep cfg s = .cont s') :
    ∀ d ∈ s'.draws, d ∈ s.draws := by
  rcases hq : s.queue with _ | ⟨e, rest⟩
  · rw [simStep, hq] at hs
    cases hs
  · rw [simStep, hq] at hs
    dsimp only at hs
    cases hae : e.act
    all_goals rw [hae] at hs
    all_goals dsimp only at hs
    case stop => cases hs
    case genFirst =>
      split at hs
      · cases hs
      · rcases hd : s.draws with _ | ⟨d0, ds⟩ <;> rw [hd] at hs <;> dsimp only at hs
        · injection hs with hs'
          subst hs'
          intro d hd'
          exact absurd (show d ∈ ([] : List ℚ) from hd') (List.not_mem_nil d)
        · split at hs
          · cases hs
          · injection hs with hs'
            subst hs'
            intro d hd'
            have hd'' : d ∈ ds := hd'
            exact List.mem_cons_of_mem _ hd''
    case genTick =>
      simp only [sched] at hs
      split at hs
      · cases hs
      · rcases hd : s.draws with _ | ⟨d0, ds⟩ <;> rw [hd] at hs <;> dsimp only at hs
        · injection hs with hs'
          subst hs'
          intro d hd'
          exact absurd (show d ∈ ([] : List ℚ) from hd') (List.not_mem_nil d)
        · split at hs
          · cases hs
          · injection hs with hs'
            subst hs'
            intro d hd'
            have hd'' : d ∈ ds := hd'
            exact List.mem_cons_of_mem _ hd''
    case vehStart =>
      injection hs with hs'
      subst hs'
      intro d hd'
      rw [containerGet1_draws] at hd'
      exact hd'
    case getGrant =>
      injection hs with hs'
      subst hs'
      intro d hd'
      rw [triggerPut_draws] at hd'
      exact hd'
    case repStart =>
      split at hs
      · cases hs
      · injection hs with hs'
        subst hs'
        intro d hd'
        exact hd'
    case repDone =>
      injection hs with hs'
      subst hs'
      intro d hd'
      rw [containerPut1_draws] at hd'
      exact hd'
    case putDone =>
      injection hs with hs'
      subst hs'
      intro d hd'
      rw [triggerGet_draws] at hd'
      exact hd'
    case sample =>
      split at hs
      · cases hs
      · injection hs with hs'
        subst hs'
        intro d hd'
        exact hd'

/-- With `record_interval = 0` the run can never halt: the observer's
pending event is always at time `(length ts) * 0 = 0`, which sorts strictly
before the stop event at the positive horizon. -/
theorem simStep_no_halt {cfg : Cfg} {s : SimState} (h : Inv cfg s)
    (hri : cfg.record_interval = 0) :
    ∀ s' : SimState, simStep cfg s ≠ .halt s' := by
  intro s' hs
  rcases hq : s.queue with _ | ⟨e, rest⟩
  · rw [simStep, hq] at hs
    cases hs
  · rw [simStep, hq] at hs
    dsimp only at hs
    cases hae : e.act
    all_goals rw [hae] at hs
    all_goals dsimp only at hs
    case stop =>
      obtain ⟨het, hep, hei⟩ :=
        h.stop_shape e (by rw [hq]; exact List.mem_cons_self _ _) hae
      have hpos : 0 < cntAct .sample s.queue := by rw [h.obs_count]; omega
      obtain ⟨x, hxm, hxa⟩ := cnt_pos_iff.1 hpos
      have hxr : x ∈ rest := by
        rw [hq] at hxm
        rcases List.mem_cons.1 hxm with rfl | hxr
        · rw [hae] at hxa; cases hxa
        · exact hxr
      obtain ⟨hxt, _, _⟩ :=
        h.obs_time x (by rw [hq]; exact List.mem_cons_of_mem _ hxr) hxa
      have hx0 : x.time = 0 := by rw [hxt, hri, mul_zero]
      have hrel : evLE e x := List.rel_of_sorted_cons (hq ▸ h.sorted) x hxr
      have hvt := h.valid_time
      rcases hrel with hlt | ⟨heq, _⟩
      · rw [hx0, het] at hlt
        linarith
      · rw [hx0, het] at heq
        linarith
    all_goals repeat' split at hs
    all_goals cases hs

/-- With a non-zero rate, non-negative repair time and record interval, and
non-negative draws, no step can fail. -/
theorem simStep_no_fail {cfg : Cfg} {s : SimState} (h : Inv cfg s)
    (hrate : cfg.demand_rate ≠ 0) (hrct : 0 ≤ cfg.repair_cycle_time)
    (hri : 0 ≤ cfg.record_interval) (hdr : ∀ d ∈ s.draws, 0 ≤ d) :
    ∀ er : SimError, simStep cfg s ≠ .fail er := by
  intro er hs
  rcases hq : s.queue with _ | ⟨e, rest⟩
  · have h1 := h.stop_count
    rw [hq] at h1
    simp [cntAct] at h1
  · rw [simStep, hq] at hs
    dsimp only at hs
    cases hae : e.act
    all_goals rw [hae] at hs
    all_goals dsimp only at hs
    case stop => cases hs
    case genFirst =>
      rw [if_neg hrate] at hs
      rcases hd : s.draws with _ | ⟨d, ds⟩ <;> rw [hd] at hs <;> dsimp only at hs
      · cases hs
      · rw [if_neg (not_lt.2 (hdr d (by rw [hd]; exact List.mem_cons_self _ _)))] at hs
        cases hs
    case genTick =>
      simp only [sched] at hs
      rw [if_neg hrate] at hs
      rcases hd : s.draws with _ | ⟨d, ds⟩ <;> rw [hd] at hs <;> dsimp only at hs
      · cases hs
      · rw [if_neg (not_lt.2 (hdr d (by rw [hd]; exact List.mem_cons_self _ _)))] at hs
        cases hs
    case vehStart => cases hs
    case getGrant => cases hs
    case repStart =>
      rw [if_neg (not_lt.2 hrct)] at hs
      cases hs
    case repDone => cases hs
    case putDone => cases hs
    case sample =>
      rw [if_neg (not_lt.2 hri)] at hs
      cases hs

/-- With `record_interval = 0` (and otherwise benign inputs) the event loop
exhausts every fuel bound: it can neither halt nor fail, so it runs forever
— the model's rendering of the Python run hanging at time 0. -/
theorem simLoop_fuelOut {cfg : Cfg} (hrate : cfg.demand_rate ≠ 0)
    (hrct : 0 ≤ cfg.repair_cycle_time) (hri : cfg.record_interval = 0) :
    ∀ (fuel : ℕ) (s : SimState), Inv cfg s → (∀ d ∈ s.draws, 0 ≤ d) →
      simLoop cfg fuel s = .fuelOut := by
  intro fuel
  induction fuel with
  | zero => intro s _ _; rfl
  | succ n ih =>
    intro s hInv hdr
    rw [simLoop]
    cases hstep : simStep cfg s with
    | cont s1 =>
      dsimp only
      exact ih s1 (inv_step hInv hstep) (fun d hd => hdr d (simStep_draws hstep d hd))
    | halt s1 => exact absurd hstep (simStep_no_halt hInv hri s1)
    | fail er => exact absurd hstep (simStep_no_fail hInv hrate hrct (le_of_eq hri.symm) hdr er)

/-- Claim C1 (counterexample): the conservation law fails at a recorded
snapshot.  With `initial_supply = 1`, `sim_time = 2`, `record_interval = 1`
and a single interarrival draw of exactly 1, the arrival lands on the sample
instant: the generator timeout (id 3) sorts before the observer timeout
(id 4), the spawned vehicle start is URGENT, so the pool level is already
decremented while `in_repair` is still 0 when the snapshot at t = 1 is
recorded: `available_supply + in_repair = 0 ≠ 1`. -/
theorem conservation_counterexample :
    run_simulation 1 1 5 2 1 [1] 20 =
      .ok ⟨1, 1, 1, 0, 0, 1⟩ [⟨0, 1, 0, 0, 0, 0, 0⟩, ⟨1, 0, 0, 0, 1, 0, 0⟩] ∧
    ¬ (∀ sn ∈ [(⟨0, 1, 0, 0, 0, 0, 0⟩ : Snapshot), ⟨1, 0, 0, 0, 1, 0, 0⟩],
        sn.available_supply + sn.in_repair = 1) := by
  constructor
  · decide
  · decide

/-- Claim C1 (amended): in every reachable state the conservation ledger
holds up to the same-instant in-flight events — `level + in_repair` plus the
pending grant (`getGrant`) and repair-start (`repStart`) events equals
`initial_supply` plus the pending return (`putDone`) events; and in
`final_metrics` (the state at the horizon, where no such event can be
pending) `available_supply + in_repair = initial_supply` exactly. -/
theorem conservation_amended :
    ∀ (cfg : Cfg) (draws : List ℚ) (fuel : ℕ),
      (∀ s : SimState, Reach cfg draws s →
        s.level + s.in_repair + cntAct .getGrant s.queue + cntAct .repStart s.queue
          = cfg.initial_supply + cntAct .putDone s.queue) ∧
      (∀ sF : SimState, simRun cfg draws fuel = .ok sF →
        sF.level + sF.in_repair = cfg.initial_supply) := by
  intro cfg draws fuel
  constructor
  · intro s hsreach
    have hI := reach_inv hsreach
    have hB := hI.ledgerB
    have hL := hI.ledgerL
    omega
  · intro sF hrun
    exact (simRun_final hrun).conservation

/-- Claim C1 (witness): the ledger at the initial state of a supply-2 run,
and exact conservation in the final state of a concrete completed run. -/
theorem conservation_amended_witness :
    ((initSt ⟨2, 1, 1, 3, 1⟩ []).level + (initSt ⟨2, 1, 1, 3, 1⟩ []).in_repair
        + cntAct .getGrant (initSt ⟨2, 1, 1, 3, 1⟩ []).queue
        + cntAct .repStart (initSt ⟨2, 1, 1, 3, 1⟩ []).queue
      = 2 + cntAct .putDone (initSt ⟨2, 1, 1, 3, 1⟩ []).queue) ∧
    ((⟨1, 4, [⟨1, 1, 3, .sample⟩], 1, 0, 0, 0, 0, 0, [⟨0, 1, 0, 0, 0, 0, 0⟩], []⟩ :
        SimState).level
      + (⟨1, 4, [⟨1, 1, 3, .sample⟩], 1, 0, 0, 0, 0, 0, [⟨0, 1, 0, 0, 0, 0, 0⟩], []⟩ :
        SimState).in_repair = 1) :=
  ⟨(conservation_amended ⟨2, 1, 1, 3, 1⟩ [] 0).1 (initSt ⟨2, 1, 1, 3, 1⟩ [])
      (Reach.start (by decide) (by norm_num)),
    (conservation_amended ⟨1, 1, 1, 1, 1⟩ [] 10).2
      ⟨1, 4, [⟨1, 1, 3, .sample⟩], 1, 0, 0, 0, 0, 0, [⟨0, 1, 0, 0, 0, 0, 0⟩], []⟩
      (by decide)⟩

/-- Claim C2: determinism — two invocations of `run_simulation` with
identical configuration inputs and an identical random draw stream (the
stream is a pure function of the seed) produce identical outputs, final
metrics and timeseries alike. -/
theorem determinism_of_run :
    ∀ (is₁ is₂ : ℕ) (dr₁ dr₂ rct₁ rct₂ st₁ st₂ ri₁ ri₂ : ℚ)
      (draws₁ draws₂ : List ℚ) (fuel₁ fuel₂ : ℕ),
      is₁ = is₂ → dr₁ = dr₂ → rct₁ = rct₂ → st₁ = st₂ → ri₁ = ri₂ →
      draws₁ = draws₂ → fuel₁ = fuel₂ →
      run_simulation is₁ dr₁ rct₁ st₁ ri₁ draws₁ fuel₁
        = run_simulation is₂ dr₂ rct₂ st₂ ri₂ draws₂ fuel₂ := by
  intro is₁ is₂ dr₁ dr₂ rct₁ rct₂ st₁ st₂ ri₁ ri₂ draws₁ draws₂ fuel₁ fuel₂
    h1 h2 h3 h4 h5 h6 h7
  subst h1; subst h2; subst h3; subst h4; subst h5; subst h6; subst h7
  rfl

/-- Claim C2 (witness): determinism applied at a concrete configuration. -/
theorem determinism_witness :
    run_simulation 1 1 5 2 1 [1] 20 = run_simulation 1 1 5 2 1 [1] 20 :=
  determinism_of_run 1 1 1 1 5 5 2 2 1 1 [1] [1] 20 20 rfl rfl rfl rfl rfl rfl rfl

/-- Claim C3 (counterexample): in the same run as the conservation
counterexample, the snapshot at t = 1 records `backlog = 0` (the waiter was
already granted and removed from the get queue) while
`total_arrivals - served = 1 - 0 = 1`: the backlog identity fails. -/
theorem backlog_identity_counterexample :
    run_simulation 1 1 5 2 1 [1] 20 =
      .ok ⟨1, 1, 1, 0, 0, 1⟩ [⟨0, 1, 0, 0, 0, 0, 0⟩, ⟨1, 0, 0, 0, 1, 0, 0⟩] ∧
    ¬ (∀ sn ∈ [(⟨0, 1, 0, 0, 0, 0, 0⟩ : Snapshot), ⟨1, 0, 0, 0, 1, 0, 0⟩],
        sn.backlog = sn.total_arrivals - sn.served) := by
  constructor
  · decide
  · decide

/-- Claim C3 (amended): the recorded backlog always equals the length of the
container's get queue, and in every reachable state
`total_arrivals = served + backlog + (pending same-instant grants)`; in
`final_metrics` the identity `total_arrivals = served + backlog` is exact. -/
theorem backlog_identity_amended :
    ∀ (cfg : Cfg) (draws : List ℚ) (fuel : ℕ),
      (∀ s : SimState, Reach cfg draws s →
        s.total_arrivals = s.served + s.getQ + cntAct .getGrant s.queue) ∧
      (∀ (m : FinalMetrics) (ts : List Snapshot),
        run_simulation cfg.initial_supply cfg.demand_rate cfg.repair_cycle_time
            cfg.sim_time cfg.record_interval draws fuel = .ok m ts →
        m.total_arrivals = m.served + m.backlog) := by
  intro cfg draws fuel
  constructor
  · intro s hs
    exact (reach_inv hs).ledgerA
  · intro m ts hr
    obtain ⟨sF, hs, hm, hts⟩ := run_simulation_ok hr
    have F := simRun_final hs
    subst hm
    exact F.backlog_id

/-- Claim C3 (witness): the ledger at the initial state, and the exact final
identity on a concrete completed run. -/
theorem backlog_identity_amended_witness :
    ((initSt ⟨2, 1, 1, 3, 1⟩ []).total_arrivals
      = (initSt ⟨2, 1, 1, 3, 1⟩ []).served + (initSt ⟨2, 1, 1, 3, 1⟩ []).getQ
        + cntAct .getGrant (initSt ⟨2, 1, 1, 3, 1⟩ []).queue) ∧
    ((⟨1, 1, 1, 0, 0, 1⟩ : FinalMetrics).total_arrivals
      = (⟨1, 1, 1, 0, 0, 1⟩ : FinalMetrics).served
        + (⟨1, 1, 1, 0, 0, 1⟩ : FinalMetrics).backlog) :=
  ⟨(backlog_identity_amended ⟨2, 1, 1, 3, 1⟩ [] 0).1 (initSt ⟨2, 1, 1, 3, 1⟩ [])
      (Reach.start (by decide) (by norm_num)),
    (backlog_identity_amended ⟨1, 1, 5, 2, 1⟩ [1] 20).2 ⟨1, 1, 1, 0, 0, 1⟩
      [⟨0, 1, 0, 0, 0, 0, 0⟩, ⟨1, 0, 0, 0, 1, 0, 0⟩] (by decide)⟩

/-- Claim C4 (counterexample): an event scheduled for exactly the horizon is
NOT executed.  With `sim_time = 1`, `record_interval = 1` and no arrivals,
the observer's second sample event is scheduled for exactly t = 1, but the
run ends with the stop event (URGENT, id 2) first: the final state still
holds the unexecuted sample event `⟨1, 1, 3, sample⟩` and the timeseries has
only the t = 0 snapshot. -/
theorem horizon_counterexample :
    simRun ⟨1, 1, 1, 1, 1⟩ [] 10 =
      .ok ⟨1, 4, [⟨1, 1, 3, .sample⟩], 1, 0, 0, 0, 0, 0, [⟨0, 1, 0, 0, 0, 0, 0⟩], []⟩ := by
  decide

/-- Claim C4 (amended): only events strictly before the horizon execute.
Every recorded snapshot has `time < sim_time`, and every event still pending
when the run ends — including any scheduled for exactly `sim_time` — has
`time ≥ sim_time` and is discarded unexecuted (no drain phase). -/
theorem horizon_amended :
    ∀ (cfg : Cfg) (draws : List ℚ) (fuel : ℕ) (sF : SimState),
      simRun cfg draws fuel = .ok sF →
      (∀ sn ∈ sF.ts, sn.time < cfg.sim_time) ∧ (∀ e ∈ sF.queue, cfg.sim_time ≤ e.time) := by
  intro cfg draws fuel sF hr
  exact ⟨(simRun_final hr).ts_lt, (simRun_final hr).queue_ge⟩

/-- Claim C4 (witness): in the concrete run above, the leftover sample event
at exactly the horizon satisfies `sim_time ≤ time`. -/
theorem horizon_amended_witness :
    (1 : ℚ) ≤ (⟨1, 1, 3, .sample⟩ : Ev).time :=
  (horizon_amended ⟨1, 1, 1, 1, 1⟩ [] 10
      ⟨1, 4, [⟨1, 1, 3, .sample⟩], 1, 0, 0, 0, 0, 0, [⟨0, 1, 0, 0, 0, 0, 0⟩], []⟩
      (by decide)).2 ⟨1, 1, 3, .sample⟩ (by decide)

/-- Claim C5 (counterexample): no eager validation and no `ConfigError`
exist.  With the invalid input `demand_rate = 0`, construction succeeds and
the run starts; the failure is a `ZeroDivisionError` raised inside
`random.expovariate` at the generator's first event — not a `ConfigError`
raised at construction. -/
theorem validation_counterexample :
    run_simulation 1 0 1 1 1 [] 5 = .fail .zeroDivisionError ∧
    SimError.zeroDivisionError ≠ SimError.configError := by
  constructor
  · decide
  · decide

/-- Claim C5 (amended): validation is lazy and raises library exceptions,
never a `ConfigError`: `initial_supply = 0` raises `ValueError` at `Container`
construction; `sim_time ≤ 0` raises `ValueError` when `env.run` is called;
`demand_rate = 0` raises `ZeroDivisionError` at the generator's first event;
a negative `record_interval` raises `ValueError` when the observer
reschedules, after the first snapshot, whatever the draw list; a negative
interarrival draw (the case `demand_rate < 0`) raises `ValueError` at
timeout creation; a negative `repair_cycle_time` raises `ValueError` only
when the first repair starts (shown on a run whose first arrival is granted,
for every negative value); `repair_cycle_time = 0` raises nothing and the
run completes; `record_interval = 0` raises nothing and never reaches the
horizon: the loop exhausts every fuel bound. -/
theorem validation_amended :
    ∀ (initial_supply : ℕ) (demand_rate repair_cycle_time sim_time record_interval : ℚ)
      (draws : List ℚ) (fuel : ℕ),
      (initial_supply = 0 →
        run_simulation initial_supply demand_rate repair_cycle_time sim_time record_interval
          draws fuel = .fail .valueErrorCapacity) ∧
      (initial_supply ≠ 0 → sim_time ≤ 0 →
        run_simulation initial_supply demand_rate repair_cycle_time sim_time record_interval
          draws fuel = .fail .valueErrorUntil) ∧
      (initial_supply ≠ 0 → 0 < sim_time → demand_rate = 0 → 1 ≤ fuel →
        run_simulation initial_supply demand_rate repair_cycle_time sim_time record_interval
          draws fuel = .fail .zeroDivisionError) ∧
      (initial_supply ≠ 0 → 0 < sim_time → demand_rate ≠ 0 → record_interval < 0 →
        2 ≤ fuel →
        run_simulation initial_supply demand_rate repair_cycle_time sim_time record_interval
          draws fuel = .fail .valueErrorNegDelay) ∧
      (∀ d : ℚ, ∀ ds : List ℚ, initial_supply ≠ 0 → 0 < sim_time → demand_rate ≠ 0 →
        d < 0 → draws = d :: ds → 1 ≤ fuel →
        run_simulation initial_supply demand_rate repair_cycle_time sim_time record_interval
          draws fuel = .fail .valueErrorNegDelay) ∧
      (repair_cycle_time < 0 → 6 ≤ fuel →
        run_simulation 1 1 repair_cycle_time 2 1 [0] fuel = .fail .valueErrorNegDelay) ∧
      (run_simulation 1 1 0 2 1 [0] 20
        = .ok ⟨1, 1, 1, 0, 1, 0⟩ [⟨0, 1, 0, 0, 0, 0, 0⟩, ⟨1, 1, 0, 0, 1, 1, 1⟩]) ∧
      (initial_supply ≠ 0 → 0 < sim_time → demand_rate ≠ 0 → 0 ≤ repair_cycle_time →
        record_interval = 0 → (∀ d ∈ draws, 0 ≤ d) →
        run_simulation initial_supply demand_rate repair_cycle_time sim_time record_interval
          draws fuel = .fuelOut) := by
  intro is dr rct st ri draws fuel
  refine ⟨?_, ?_, ?_, ?_, ?_, ?_, ?_, ?_⟩
  · intro h0
    subst h0
    rfl
  · intro h1 h2
    unfold run_simulation simRun
    rw [if_neg h1, if_pos h2]
  · intro h1 h2 h3 hf
    obtain ⟨n, rfl⟩ : ∃ n, fuel = n + 1 := ⟨fuel - 1, by omega⟩
    unfold run_simulation simRun
    rw [if_neg h1, if_neg (not_le.2 h2), simLoop]
    have hstep : simStep ⟨is, dr, rct, st, ri⟩ (initSt ⟨is, dr, rct, st, ri⟩ draws)
        = .fail .zeroDivisionError := by
      rw [simStep]
      dsimp only [initSt]
      rw [if_pos h3]
    rw [hstep]
  · intro h1 h2 h3 h4 hf
    obtain ⟨n, rfl⟩ : ∃ n, fuel = n + 2 := ⟨fuel - 2, by omega⟩
    unfold run_simulation simRun
    rw [if_neg h1, if_neg (not_le.2 h2)]
    rcases draws with _ | ⟨d, ds⟩
    · rw [simLoop]
      have hstep1 : simStep ⟨is, dr, rct, st, ri⟩ (initSt ⟨is, dr, rct, st, ri⟩ [])
          = .cont ⟨0, 3, [⟨0, 0, 1, .sample⟩, ⟨st, 0, 2, .stop⟩], is, 0, 0, 0, 0, 0, [], []⟩ := by
        rw [simStep]
        dsimp only [initSt]
        rw [if_neg h3]
      rw [hstep1]
      dsimp only
      rw [simLoop]
      have hstep2 : simStep ⟨is, dr, rct, st, ri⟩
          ⟨0, 3, [⟨0, 0, 1, .sample⟩, ⟨st, 0, 2, .stop⟩], is, 0, 0, 0, 0, 0, [], []⟩
          = .fail .valueErrorNegDelay := by
        rw [simStep]
        dsimp only
        rw [if_pos h4]
      rw [hstep2]
    · by_cases hd : d < 0
      · rw [simLoop]
        have hstep : simStep ⟨is, dr, rct, st, ri⟩ (initSt ⟨is, dr, rct, st, ri⟩ (d :: ds))
            = .fail .valueErrorNegDelay := by
          rw [simStep]
          dsimp only [initSt]
          rw [if_neg h3, if_pos hd]
        rw [hstep]
      · rw [simLoop]
        have hstep1 : simStep ⟨is, dr, rct, st, ri⟩ (initSt ⟨is, dr, rct, st, ri⟩ (d :: ds))
            = .cont (sched ⟨0, 3, [⟨0, 0, 1, .sample⟩, ⟨st, 0, 2, .stop⟩],
                is, 0, 0, 0, 0, 0, [], ds⟩ (0 + d) 1 .genTick) := by
          rw [simStep]
          dsimp only [initSt]
          rw [if_neg h3, if_neg hd]
        rw [hstep1]
        dsimp only
        rw [simLoop]
        have hne1 : ¬ evLE ⟨0 + d, 1, 3, .genTick⟩ ⟨0, 0, 1, .sample⟩ := by
          intro hcon
          rcases hcon with hlt | ⟨heq, hp⟩
          · have hlt' : 0 + d < 0 := hlt
            have hd0 : 0 ≤ d := not_lt.1 hd
            linarith
          · rcases hp with hp | ⟨hp, _⟩
            · exact absurd (show (1 : ℕ) < 0 from hp) (by omega)
            · exact absurd (show (1 : ℕ) = 0 from hp) (by omega)
        have hq1 : (sched ⟨0, 3, [⟨0, 0, 1, .sample⟩, ⟨st, 0, 2, .stop⟩],
              is, 0, 0, 0, 0, 0, [], ds⟩ (0 + d) 1 .genTick).queue
            = ⟨0, 0, 1, .sample⟩
              :: List.orderedInsert evLE ⟨0 + d, 1, 3, .genTick⟩ [⟨st, 0, 2, .stop⟩] := by
          unfold sched
          dsimp only
          rw [List.orderedInsert, if_neg hne1]
        have hstep2 : simStep ⟨is, dr, rct, st, ri⟩
            (sched ⟨0, 3, [⟨0, 0, 1, .sample⟩, ⟨st, 0, 2, .stop⟩],
              is, 0, 0, 0, 0, 0, [], ds⟩ (0 + d) 1 .genTick)
            = .fail .valueErrorNegDelay := by
          rw [simStep, hq1]
          dsimp only
          rw [if_pos h4]
        rw [hstep2]
  · intro d ds h1 h2 h3 h4 h5 hf
    subst h5
    obtain ⟨n, rfl⟩ : ∃ n, fuel = n + 1 := ⟨fuel - 1, by omega⟩
    unfold run_simulation simRun
    rw [if_neg h1, if_neg (not_le.2 h2), simLoop]
    have hstep : simStep ⟨is, dr, rct, st, ri⟩ (initSt ⟨is, dr, rct, st, ri⟩ (d :: ds))
        = .fail .valueErrorNegDelay := by
      rw [simStep]
      dsimp only [initSt]
      rw [if_neg h3]
      rw [if_pos h4]
    rw [hstep]
  · intro hrc hf
    obtain ⟨n, rfl⟩ : ∃ n, fuel = n + 6 := ⟨fuel - 6, by omega⟩
    unfold run_simulation simRun
    dsimp only
    rw [if_neg (by decide : ¬((1 : ℕ) = 0)), if_neg (by norm_num : ¬((2 : ℚ) ≤ 0))]
    rw [simLoop]
    have hstep1 : simStep ⟨1, 1, rct, 2, 1⟩ (initSt ⟨1, 1, rct, 2, 1⟩ [0])
        = .cont ⟨0, 4, [⟨0, 0, 1, .sample⟩, ⟨0, 1, 3, .genTick⟩, ⟨2, 0, 2, .stop⟩],
            1, 0, 0, 0, 0, 0, [], []⟩ := by
      rw [simStep]
      dsimp only [initSt]
      rw [if_neg (by norm_num : ¬((1 : ℚ) = 0)), if_neg (by norm_num : ¬((0 : ℚ) < 0))]
      dsimp only [sched]
      norm_num [List.orderedInsert, evLE]
    rw [hstep1]
    dsimp only
    rw [simLoop]
    have hstep2 : simStep ⟨1, 1, rct, 2, 1⟩
        ⟨0, 4, [⟨0, 0, 1, .sample⟩, ⟨0, 1, 3, .genTick⟩, ⟨2, 0, 2, .stop⟩],
          1, 0, 0, 0, 0, 0, [], []⟩
        = .cont ⟨0, 5, [⟨0, 1, 3, .genTick⟩, ⟨1, 1, 4, .sample⟩, ⟨2, 0, 2, .stop⟩],
            1, 0, 0, 0, 0, 0, [⟨0, 1, 0, 0, 0, 0, 0⟩], []⟩ := by
      rw [simStep]
      dsimp only
      rw [if_neg (by norm_num : ¬((1 : ℚ) < 0))]
      norm_num [sched, List.orderedInsert, evLE]
    rw [hstep2]
    dsimp only
    rw [simLoop]
    have hstep3 : simStep ⟨1, 1, rct, 2, 1⟩
        ⟨0, 5, [⟨0, 1, 3, .genTick⟩, ⟨1, 1, 4, .sample⟩, ⟨2, 0, 2, .stop⟩],
          1, 0, 0, 0, 0, 0, [⟨0, 1, 0, 0, 0, 0, 0⟩], []⟩
        = .cont ⟨0, 6, [⟨0, 0, 5, .vehStart⟩, ⟨1, 1, 4, .sample⟩, ⟨2, 0, 2, .stop⟩],
            1, 0, 0, 0, 0, 0, [⟨0, 1, 0, 0, 0, 0, 0⟩], []⟩ := by
      rw [simStep]
      dsimp only
      simp only [sched]
      rw [if_neg (by norm_num : ¬((1 : ℚ) = 0))]
      norm_num [List.orderedInsert, evLE]
    rw [hstep3]
    dsimp only
    rw [simLoop]
    have hstep4 : simStep ⟨1, 1, rct, 2, 1⟩
        ⟨0, 6, [⟨0, 0, 5, .vehStart⟩, ⟨1, 1, 4, .sample⟩, ⟨2, 0, 2, .stop⟩],
          1, 0, 0, 0, 0, 0, [⟨0, 1, 0, 0, 0, 0, 0⟩], []⟩
        = .cont ⟨0, 7, [⟨0, 1, 6, .getGrant⟩, ⟨1, 1, 4, .sample⟩, ⟨2, 0, 2, .stop⟩],
            0, 0, 0, 1, 0, 0, [⟨0, 1, 0, 0, 0, 0, 0⟩], []⟩ := by
      rw [simStep]
      dsimp only
      norm_num [containerGet1, triggerGet, schedN, sched, List.orderedInsert, evLE]
    rw [hstep4]
    dsimp only
    rw [simLoop]
    have hstep5 : simStep ⟨1, 1, rct, 2, 1⟩
        ⟨0, 7, [⟨0, 1, 6, .getGrant⟩, ⟨1, 1, 4, .sample⟩, ⟨2, 0, 2, .stop⟩],
          0, 0, 0, 1, 0, 0, [⟨0, 1, 0, 0, 0, 0, 0⟩], []⟩
        = .cont ⟨0, 8, [⟨0, 0, 7, .repStart⟩, ⟨1, 1, 4, .sample⟩, ⟨2, 0, 2, .stop⟩],
            0, 0, 0, 1, 1, 0, [⟨0, 1, 0, 0, 0, 0, 0⟩], []⟩ := by
      rw [simStep]
      dsimp only
      norm_num [triggerPut, schedN, sched, List.orderedInsert, evLE]
    rw [hstep5]
    dsimp only
    rw [simLoop]
    have hstep6 : simStep ⟨1, 1, rct, 2, 1⟩
        ⟨0, 8, [⟨0, 0, 7, .repStart⟩, ⟨1, 1, 4, .sample⟩, ⟨2, 0, 2, .stop⟩],
          0, 0, 0, 1, 1, 0, [⟨0, 1, 0, 0, 0, 0, 0⟩], []⟩
        = .fail .valueErrorNegDelay := by
      rw [simStep]
      dsimp only
      rw [if_pos hrc]
    rw [hstep6]
  · decide
  · intro h1 h2 h3 h4 h5 h6
    unfold run_simulation simRun
    rw [if_neg h1, if_neg (not_le.2 h2)]
    rw [simLoop_fuelOut h3 h4 h5 fuel (initSt ⟨is, dr, rct, st, ri⟩ draws)
      (inv_init draws h1 h2) h6]

/-- Claim C5 (witness): each failure mode and each no-error mode exercised
at a concrete input. -/
theorem validation_amended_witness :
    run_simulation 0 1 1 1 1 [] 5 = .fail .valueErrorCapacity ∧
    run_simulation 3 1 1 0 1 [] 5 = .fail .valueErrorUntil ∧
    run_simulation 3 0 1 1 1 [] 5 = .fail .zeroDivisionError ∧
    run_simulation 3 1 1 1 (-1) [0] 5 = .fail .valueErrorNegDelay ∧
    run_simulation 3 1 1 1 1 [-1] 5 = .fail .valueErrorNegDelay ∧
    run_simulation 1 1 (-1) 2 1 [0] 20 = .fail .valueErrorNegDelay ∧
    run_simulation 1 1 1 1 0 [] 5 = .fuelOut :=
  ⟨(validation_amended 0 1 1 1 1 [] 5).1 rfl,
    (validation_amended 3 1 1 0 1 [] 5).2.1 (by decide) (by norm_num),
    (validation_amended 3 0 1 1 1 [] 5).2.2.1 (by decide) (by norm_num) rfl (by norm_num),
    (validation_amended 3 1 1 1 (-1) [0] 5).2.2.2.1 (by decide) (by norm_num) (by norm_num)
      (by norm_num) (by norm_num),
    (validation_amended 3 1 1 1 1 [-1] 5).2.2.2.2.1 (-1) [] (by decide) (by norm_num)
      (by norm_num) (by norm_num) rfl (by norm_num),
    (validation_amended 1 1 (-1) 2 1 [0] 20).2.2.2.2.2.1 (by norm_num) (by norm_num),
    (validation_amended 1 1 1 1 0 [] 5).2.2.2.2.2.2.2 (by decide) (by norm_num) (by norm_num)
      (by norm_num) rfl (by simp)⟩

/-- Claim C6 (counterexample): a release on a full container does not raise —
there is no `PoolOverflowError` in the code.  `container.put(1)` with
`level = capacity = 1` simply leaves the request blocked in the put queue
(`putQ` becomes 1) with the level unchanged; the operation cannot fail by
construction. -/
theorem overflow_counterexample :
    containerPut1 1 ⟨0, 3, [], 1, 0, 0, 0, 0, 1, [], []⟩
      = ⟨0, 3, [], 1, 0, 1, 0, 0, 1, [], []⟩ := by
  decide

/-- Claim C6 (amended): a release that would push the level above capacity
blocks in the put queue (no exception, no clamping) — and in `run_simulation`
this never happens: every reachable state has an empty put queue, because a
repair's unit is still counted by `in_repair` when it is returned, so the
level is always strictly below capacity at release time. -/
theorem overflow_amended :
    ∀ (cfg : Cfg) (draws : List ℚ),
      (∀ s : SimState, Reach cfg draws s → s.putQ = 0) ∧
      (∀ (cap : ℕ) (X : SimState), cap ≤ X.level →
        (containerPut1 cap X).level = X.level ∧ (containerPut1 cap X).putQ = X.putQ + 1 ∧
        (containerPut1 cap X).queue = X.queue) := by
  intro cfg draws
  constructor
  · intro s hs
    exact (reach_inv hs).putQ0
  · intro cap X hcap
    unfold containerPut1 triggerPut
    dsimp only
    rw [Nat.sub_eq_zero_of_le hcap]
    simp [schedN]

/-- Claim C6 (witness): the put queue is empty at the initial state, and a
put on a full container blocks. -/
theorem overflow_amended_witness :
    (initSt ⟨2, 1, 1, 3, 1⟩ []).putQ = 0 ∧
    (containerPut1 1 ⟨0, 3, [], 1, 0, 0, 0, 0, 1, [], []⟩).putQ
      = (⟨0, 3, [], 1, 0, 0, 0, 0, 1, [], []⟩ : SimState).putQ + 1 :=
  ⟨(overflow_amended ⟨2, 1, 1, 3, 1⟩ []).1 (initSt ⟨2, 1, 1, 3, 1⟩ [])
      (Reach.start (by decide) (by norm_num)),
    ((overflow_amended ⟨1, 1, 1, 1, 1⟩ []).2 1 ⟨0, 3, [], 1, 0, 0, 0, 0, 1, [], []⟩
      (by decide)).2.1⟩

/-- Claim C7 (counterexample): a run with `initial_supply = 0` does not
complete — `simpy.Container(env, init=0, capacity=0)` raises
`ValueError('"capacity" must be > 0.')` before any event is scheduled. -/
theorem zero_supply_counterexample :
    run_simulation 0 1 5 10 1 [] 100 = .fail .valueErrorCapacity := by
  decide

/-- Claim C7 (amended): for every configuration with `initial_supply = 0`
(and any other inputs, draws and fuel), `run_simulation` fails at `Container`
construction with `ValueError`; no timeseries is ever produced. -/
theorem zero_supply_amended :
    ∀ (demand_rate repair_cycle_time sim_time record_interval : ℚ)
      (draws : List ℚ) (fuel : ℕ),
      run_simulation 0 demand_rate repair_cycle_time sim_time record_interval draws fuel
        = .fail .valueErrorCapacity :=
  fun _ _ _ _ _ _ => rfl

/-- Claim C8: counter monotonicity — across the ordered snapshots of any
completed run, `total_arrivals` and `served` are non-decreasing, and
`served ≤ total_arrivals` at every snapshot. -/
theorem monotonicity_thm :
    ∀ (initial_supply : ℕ) (demand_rate repair_cycle_time sim_time record_interval : ℚ)
      (draws : List ℚ) (fuel : ℕ) (m : FinalMetrics) (ts : List Snapshot),
      run_simulation initial_supply demand_rate repair_cycle_time sim_time record_interval
          draws fuel = .ok m ts →
      List.Pairwise (· ≤ ·) (ts.map Snapshot.total_arrivals) ∧
      List.Pairwise (· ≤ ·) (ts.map Snapshot.served) ∧
      ∀ sn ∈ ts, sn.served ≤ sn.total_arrivals := by
  intro is dr rct st ri draws fuel m ts hr
  obtain ⟨sF, hs, hm, hts⟩ := run_simulation_ok hr
  have F := simRun_final hs
  subst hts
  exact ⟨F.mono_arr, F.mono_srv, F.snap_le⟩

/-- Claim C8 (witness): monotonicity on a concrete completed run. -/
theorem monotonicity_witness :
    List.Pairwise (· ≤ ·)
      (([⟨0, 1, 0, 0, 0, 0, 0⟩, ⟨1, 0, 0, 0, 1, 0, 0⟩] : List Snapshot).map
        Snapshot.total_arrivals) :=
  (monotonicity_thm 1 1 5 2 1 [1] 20 ⟨1, 1, 1, 0, 0, 1⟩
    [⟨0, 1, 0, 0, 0, 0, 0⟩, ⟨1, 0, 0, 0, 1, 0, 0⟩] (by decide)).1

/-- Claim C9: sampling cadence — the first snapshot of every completed run is
recorded at time 0 before any arrival (all counters zero, full supply), and
with `record_interval = 1` and `sim_time = 10` the run produces exactly 10
snapshots at times 0, 1, ..., 9 (within the claim's stated 10-or-11 range;
the t = 10 sample is cut off by the horizon), so there is exactly one sample
per interval and no gap exceeds `record_interval`. -/
theorem sampling_cadence_thm :
    ∀ (initial_supply : ℕ) (demand_rate repair_cycle_time sim_time record_interval : ℚ)
      (draws : List ℚ) (fuel : ℕ) (m : FinalMetrics) (ts : List Snapshot),
      run_simulation initial_supply demand_rate repair_cycle_time sim_time record_interval
          draws fuel = .ok m ts →
      ts.head? = some ⟨0, initial_supply, 0, 0, 0, 0, 0⟩ ∧
      (sim_time = 10 → record_interval = 1 →
        ts.length = 10 ∧ ts.map Snapshot.time = (List.range 10).map (fun k : ℕ => (k : ℚ))) := by
  intro is dr rct st ri draws fuel m ts hr
  obtain ⟨sF, hs, hm, hts⟩ := run_simulation_ok hr
  have F := simRun_final hs
  subst hts
  constructor
  · rcases he : sF.ts with _ | ⟨x, l⟩
    · exact absurd he F.ts_ne
    · rw [List.head?_cons]
      have hx := F.ts_head x (by rw [he, List.head?_cons])
      rw [hx]
  · intro h10 h1
    subst h10
    subst h1
    have hk10 : (10 : ℚ) ≤ (sF.ts.length : ℚ) * 1 := F.horizon_le
    rw [mul_one] at hk10
    have hk_ge : 10 ≤ sF.ts.length := by exact_mod_cast hk10
    have httimes : sF.ts.map Snapshot.time
        = (List.range sF.ts.length).map (fun k : ℕ => (k : ℚ) * 1) := F.ts_times
    have hmem : ((sF.ts.length - 1 : ℕ) : ℚ) * 1 ∈ sF.ts.map Snapshot.time := by
      rw [httimes]
      exact List.mem_map.2 ⟨sF.ts.length - 1, List.mem_range.2 (by omega), rfl⟩
    obtain ⟨sn, hsnm, hsnt⟩ := List.mem_map.1 hmem
    have hlt10 : sn.time < 10 := F.ts_lt sn hsnm
    rw [hsnt, mul_one] at hlt10
    have hk_le : sF.ts.length - 1 < 10 := by exact_mod_cast hlt10
    have hk : sF.ts.length = 10 := by omega
    refine ⟨hk, ?_⟩
    rw [httimes, hk]
    simp

/-- Claim C9 (witness): the cadence of a concrete ten-second run with no
arrivals. -/
theorem sampling_cadence_witness :
    ([⟨0, 1, 0, 0, 0, 0, 0⟩, ⟨1, 1, 0, 0, 0, 0, 0⟩, ⟨2, 1, 0, 0, 0, 0, 0⟩,
        ⟨3, 1, 0, 0, 0, 0, 0⟩, ⟨4, 1, 0, 0, 0, 0, 0⟩, ⟨5, 1, 0, 0, 0, 0, 0⟩,
        ⟨6, 1, 0, 0, 0, 0, 0⟩, ⟨7, 1, 0, 0, 0, 0, 0⟩, ⟨8, 1, 0, 0, 0, 0, 0⟩,
        ⟨9, 1, 0, 0, 0, 0, 0⟩] : List Snapshot).head? = some ⟨0, 1, 0, 0, 0, 0, 0⟩ ∧
    ([⟨0, 1, 0, 0, 0, 0, 0⟩, ⟨1, 1, 0, 0, 0, 0, 0⟩, ⟨2, 1, 0, 0, 0, 0, 0⟩,
        ⟨3, 1, 0, 0, 0, 0, 0⟩, ⟨4, 1, 0, 0, 0, 0, 0⟩, ⟨5, 1, 0, 0, 0, 0, 0⟩,
        ⟨6, 1, 0, 0, 0, 0, 0⟩, ⟨7, 1, 0, 0, 0, 0, 0⟩, ⟨8, 1, 0, 0, 0, 0, 0⟩,
        ⟨9, 1, 0, 0, 0, 0, 0⟩] : List Snapshot).length = 10 := by
  have h := sampling_cadence_thm 1 1 1 10 1 [] 30 ⟨0, 0, 0, 0, 1, 0⟩
    [⟨0, 1, 0, 0, 0, 0, 0⟩, ⟨1, 1, 0, 0, 0, 0, 0⟩, ⟨2, 1, 0, 0, 0, 0, 0⟩,
      ⟨3, 1, 0, 0, 0, 0, 0⟩, ⟨4, 1, 0, 0, 0, 0, 0⟩, ⟨5, 1, 0, 0, 0, 0, 0⟩,
      ⟨6, 1, 0, 0, 0, 0, 0⟩, ⟨7, 1, 0, 0, 0, 0, 0⟩, ⟨8, 1, 0, 0, 0, 0, 0⟩,
      ⟨9, 1, 0, 0, 0, 0, 0⟩] (by decide)
  exact ⟨h.1, (h.2 rfl rfl).1⟩

/-- Claim C10: `run_simulation` called with `record_interval` omitted behaves
exactly as if `record_interval = 1.0` had been passed (the Python parameter
default). -/
theorem record_interval_default_thm :
    ∀ (initial_supply : ℕ) (demand_rate repair_cycle_time sim_time : ℚ)
      (draws : List ℚ) (fuel : ℕ),
      run_simulation_default initial_supply demand_rate repair_cycle_time sim_time draws fuel
        = run_simulation initial_supply demand_rate repair_cycle_time sim_time 1 draws fuel :=
  fun _ _ _ _ _ _ => rfl

end RepairSim
